import Mathlib

/-!
# Haptic sampling / filtering / prediction loop

Shallow embedding of `axisUpperLim`, `runningAverage` and the loop of
`updateHaptics` from `RunningAvg_Prediction_Algo_071817.cpp`.

Modelling conventions
* A finite C++ `double` is the rational it denotes.  The first model
  (`runningAverage`, `loopBody`, `step`, `run`) computes in exact rationals; it
  is used for the properties that rest on control flow, copies, comparisons and
  values far from any threshold.  The second model (`runningAverageD`,
  `loopBodyD`, `stepD`, `runD`) rounds every arithmetic result to binary64 and
  lets the accumulators be non-finite; it is used for the properties that
  depend on the values the arithmetic produces.
* `abs` is the absolute value on `double` (the overload `std::abs(double)`
  that `using namespace std` selects).
* `int cnt` is modelled by `Int`; the loop keeps it between 0 and 31, far from
  the 32-bit limits, so no wrap-around is written.
* Variables the source leaves uninitialised (`avgx`, `cx`, `px`, ...) start
  with arbitrary contents, supplied as a parameter of `initState`.
* The device readings that never reach the numeric state (rotation, gripper
  angle, angular velocities, buttons) are left out of `Sample`.
-/

namespace HapticLoop

/-- Three doubles of a chai3d `cVector3d`. -/
structure cVector3d where
  x : ℚ
  y : ℚ
  z : ℚ
deriving DecidableEq

/-- Component-wise sum, chai3d's `cAdd`. -/
def cAdd (a b : cVector3d) : cVector3d :=
  ⟨a.x + b.x, a.y + b.y, a.z + b.z⟩

/-- Source lines 436-447: the velocity upper limit. -/
def axisUpperLim (a limit : ℚ) : ℚ :=
  let a := if a > limit then limit else a
  let a := if a < -limit then -limit else a
  a

/-- Source lines 451-456, the recurrence read in exact arithmetic; see
`runningAverageD` for the same lines with every result rounded to a double. -/
def runningAverage (prev_a a operand : ℚ) : ℚ :=
  ((prev_a * operand) + a) / (operand + 1)

/-- Limit values of lines 538-540. -/
def limx : ℚ := 0.05
def limy : ℚ := 0.05
def limz : ℚ := 0.05

/-- One poll of the haptic device: `getPosition` and `getLinearVelocity`. -/
structure Sample where
  position : cVector3d
  linearVelocity : cVector3d

/-- Control points of `updateHaptics`: the test of the `while`, the test of the
`for`, and the code after the `while`. -/
inductive Loc where
  | whileTest
  | forTest
  | finished
deriving DecidableEq

/-- Variables of `updateHaptics` together with the globals it writes.
`operand` and `linearVelocity` are locals of the loop body; the record keeps
their value at the end of the last body executed.  `polls` counts the device
polls made so far and `signals` the calls `frequencyCounter.signal(1)`. -/
structure HapticState where
  loc : Loc
  simulationRunning : Bool
  simulationFinished : Bool
  cnt : Int
  operand : ℚ
  prevLinearVelocity : cVector3d
  avgLinearVelocity : cVector3d
  linearVelocity : cVector3d
  px : ℚ
  py : ℚ
  pz : ℚ
  cx : ℚ
  cy : ℚ
  cz : ℚ
  avgx : ℚ
  avgy : ℚ
  avgz : ℚ
  velocityA : cVector3d
  velocityB : cVector3d
  avgVelocityA : cVector3d
  avgVelocityB : cVector3d
  cursorPos : cVector3d
  predictIndicatorPos : cVector3d
  hapticDevicePosition : cVector3d
  polls : Nat
  signals : Nat

/-- One of the three `if ( abs(p-c) >= .009 )` statements of lines 591-614,
acting on the pair `(linearVelocity, prevLinearVelocity)`. -/
def jitterCheck (pa ca : ℚ) (lp : cVector3d × cVector3d) : cVector3d × cVector3d :=
  if abs (pa - ca) ≥ 0.009 then
    -- linearVelocity = prevLinearVelocity;
    (lp.2, lp.2)
  else
    -- prevLinearVelocity = linearVelocity;
    (lp.1, lp.1)

/-- Lines 577-614 restricted to the two vectors: `linearVelocity.set(cx,cy,cz)`,
the copies `px,py,pz` of the stored vector, then the x, y and z checks in
sequence.  Returns `(linearVelocity, prevLinearVelocity)`. -/
def jitterFilter (prev : cVector3d) (cx cy cz : ℚ) : cVector3d × cVector3d :=
  let linearVelocity : cVector3d := ⟨cx, cy, cz⟩
  let px := prev.x
  let py := prev.y
  let pz := prev.z
  let prevLinearVelocity : cVector3d := ⟨px, py, pz⟩
  let lp := jitterCheck px cx (linearVelocity, prevLinearVelocity)
  let lp := jitterCheck py cy lp
  let lp := jitterCheck pz cz lp
  lp

/-- Body of the `for` loop, lines 552-667, on the sample the device delivers. -/
def loopBody (smp : Sample) (s : HapticState) : HapticState :=
  let operand : ℚ := (s.cnt : ℚ)
  let position := smp.position
  let cx := axisUpperLim smp.linearVelocity.x limx
  let cy := axisUpperLim smp.linearVelocity.y limy
  let cz := axisUpperLim smp.linearVelocity.z limz
  let px := s.prevLinearVelocity.x
  let py := s.prevLinearVelocity.y
  let pz := s.prevLinearVelocity.z
  let avgx := runningAverage s.avgx cx operand
  let avgy := runningAverage s.avgy cy operand
  let avgz := runningAverage s.avgz cz operand
  let avgLinearVelocity : cVector3d := ⟨avgx, avgy, avgz⟩
  let lp := jitterFilter s.prevLinearVelocity cx cy cz
  let linearVelocity := lp.1
  let prevLinearVelocity := lp.2
  -- reset predict location if velocity low (lines 659-664)
  let low : Bool := decide (abs cx + abs cy + abs cz < 0.001)
  { s with
    operand := operand
    px := px
    py := py
    pz := pz
    avgx := avgx
    avgy := avgy
    avgz := avgz
    avgLinearVelocity := avgLinearVelocity
    linearVelocity := linearVelocity
    prevLinearVelocity := prevLinearVelocity
    velocityA := position
    velocityB := cAdd position linearVelocity
    avgVelocityA := position
    avgVelocityB := cAdd position avgLinearVelocity
    cursorPos := position
    predictIndicatorPos := if low then position else cAdd position linearVelocity
    hapticDevicePosition := position
    cx := if low then 0 else cx
    cy := if low then 0 else cy
    cz := if low then 0 else cz
    polls := s.polls + 1
    signals := s.signals + 1 }

/-- Lines 669-671: `if(cnt == 30){ cnt = 0; }`. -/
def wrapCnt (s : HapticState) : HapticState :=
  if s.cnt = 30 then { s with cnt := 0 } else s

/-- The `cnt++` of the `for` header, line 551. -/
def forIncrement (s : HapticState) : HapticState :=
  { s with cnt := s.cnt + 1 }

/-- One pass of the `for` loop: body, wrap, increment. -/
def iteration (smp : Sample) (s : HapticState) : HapticState :=
  forIncrement (wrapCnt (loopBody smp s))

/-- One step of `updateHaptics`.  `dev k` is the reading of the device at its
poll number `k`; `stop` tells whether another thread (`close`, line 412) has
written `simulationRunning = false` before this step. -/
def step (dev : Nat → Sample) (stop : Bool) (s : HapticState) : HapticState :=
  let s := if stop then { s with simulationRunning := false } else s
  match s.loc with
  | Loc.whileTest =>
    if s.simulationRunning then
      -- enter the for loop: cnt = 0
      { s with cnt := 0, loc := Loc.forTest }
    else
      -- line 678
      { s with simulationFinished := true, loc := Loc.finished }
  | Loc.forTest =>
    if s.cnt ≤ 30 then iteration (dev s.polls) s
    else { s with loc := Loc.whileTest }
  | Loc.finished => s

/-- Run the loop for one step per entry of `stops`. -/
def run (dev : Nat → Sample) : List Bool → HapticState → HapticState
  | [], s => s
  | stop :: stops, s => run dev stops (step dev stop s)

/-- State on reaching the `while` for the first time (lines 509-540); `g`
holds the contents of the variables the source does not initialise. -/
def initState (g : HapticState) : HapticState :=
  { g with
    loc := Loc.whileTest
    simulationRunning := true
    simulationFinished := false
    prevLinearVelocity := ⟨0.0, 0.0, 0.0⟩
    polls := 0
    signals := 0 }

/-- A memory whose uninitialised cells all hold zero. -/
def zeroState : HapticState :=
  { loc := Loc.whileTest, simulationRunning := false, simulationFinished := true,
    cnt := 0, operand := 0,
    prevLinearVelocity := ⟨0, 0, 0⟩, avgLinearVelocity := ⟨0, 0, 0⟩,
    linearVelocity := ⟨0, 0, 0⟩,
    px := 0, py := 0, pz := 0, cx := 0, cy := 0, cz := 0,
    avgx := 0, avgy := 0, avgz := 0,
    velocityA := ⟨0, 0, 0⟩, velocityB := ⟨0, 0, 0⟩,
    avgVelocityA := ⟨0, 0, 0⟩, avgVelocityB := ⟨0, 0, 0⟩,
    cursorPos := ⟨0, 0, 0⟩, predictIndicatorPos := ⟨0, 0, 0⟩,
    hapticDevicePosition := ⟨0, 0, 0⟩, polls := 0, signals := 0 }

/-- A device that reports the same position and raw velocity at every poll. -/
def constDevice (pos vel : cVector3d) : Nat → Sample :=
  fun _ => ⟨pos, vel⟩

/-- Lines 573-577: the clamped reading, `linearVelocity.set(cx, cy, cz)`. -/
def clampedVelocity (smp : Sample) : cVector3d :=
  ⟨axisUpperLim smp.linearVelocity.x limx,
   axisUpperLim smp.linearVelocity.y limy,
   axisUpperLim smp.linearVelocity.z limz⟩

/-- A single hold test on the x axis only, as the prose puts it: both the
filtered and the stored vector become `p` when `|p.x - c.x| ≥ 0.009` and `c`
otherwise.  Returns `(filtered, stored)`. -/
def xAxisCheck (p c : cVector3d) : cVector3d × cVector3d :=
  if abs (p.x - c.x) ≥ 0.009 then (p, p) else (c, c)

/-- Index invariant of the loop: whenever control is at the test of the `for`,
`cnt` is between 0 and 30. -/
def CntInRange (s : HapticState) : Prop :=
  s.loc = Loc.forTest → 0 ≤ s.cnt ∧ s.cnt ≤ 30

/-- Control is inside the `for` loop with a valid index and the exit code of
line 678 has not run. -/
def InLoop (s : HapticState) : Prop :=
  s.loc = Loc.forTest ∧ 0 ≤ s.cnt ∧ s.cnt ≤ 30 ∧ s.simulationFinished = false

/-- Successor of the index from one pass to the next: the wrap of lines
669-671 followed by `cnt++`. -/
def nextCnt (c : Int) : Int :=
  if c = 30 then 0 + 1 else c + 1

/-- The vector `(0.02, 0.02, 0.02)`. -/
def v002 : cVector3d := ⟨0.02, 0.02, 0.02⟩

/-- State after `k` passes of the `for` loop when the running flag is never
cleared: one step for the test of the `while`, then one step per pass. -/
def afterIterations (dev : Nat → Sample) (g : HapticState) (k : Nat) : HapticState :=
  run dev (List.replicate (k + 1) false) (initState g)

/-- Every component of `v` lies in `[-0.05, 0.05]`. -/
def withinLimit (v : cVector3d) : Prop :=
  (-0.05 ≤ v.x ∧ v.x ≤ 0.05) ∧ (-0.05 ≤ v.y ∧ v.y ≤ 0.05) ∧ (-0.05 ≤ v.z ∧ v.z ≤ 0.05)

instance (v : cVector3d) : Decidable (withinLimit v) := by
  unfold withinLimit
  infer_instance

/-- On each axis `q` differs from `p` by at most 0.05. -/
def nearPosition (q p : cVector3d) : Prop :=
  abs (q.x - p.x) ≤ 0.05 ∧ abs (q.y - p.y) ≤ 0.05 ∧ abs (q.z - p.z) ≤ 0.05

instance (q p : cVector3d) : Decidable (nearPosition q p) := by
  unfold nearPosition
  infer_instance

/-- Bounds that hold at the end of a pass: stored, filtered and average
velocity within the limit, and the predicted position near the published
device position. -/
def BoundedAfterPass (s : HapticState) : Prop :=
  withinLimit s.prevLinearVelocity ∧ withinLimit s.linearVelocity
  ∧ withinLimit s.avgLinearVelocity ∧ withinLimit ⟨s.avgx, s.avgy, s.avgz⟩
  ∧ nearPosition s.predictIndicatorPos s.hapticDevicePosition

/-! ## Binary64 model

The definitions above compute in exact rationals.  The ones below round every
arithmetic result of the loop to binary64 (IEEE 754 double precision, round to
nearest, ties to even, gradual underflow), the arithmetic the compiled program
performs.  A finite double is the rational it denotes; `none` stands for a
double that is not finite (NaN or an infinity).  Comparisons, negation, `abs`,
copies and the conversion of `cnt` are exact on doubles and are kept as they
are. -/

/-- Nearest integer to `y`, the even one of the two when `y` lies half way. -/
def roundEven (y : ℚ) : ℤ :=
  let f := ⌊y⌋
  if y - f < 1 / 2 then f
  else if y - f > 1 / 2 then f + 1
  else if f % 2 = 0 then f else f + 1

/-- Binary logarithm of `n` by halving, with `fuel` halvings allowed. -/
def log2Fuel : Nat → Nat → Nat
  | 0, _ => 0
  | fuel + 1, n => if n < 2 then 0 else log2Fuel fuel (n / 2) + 1

/-- Binary logarithm of a natural number, rounded down: the `k` with
`2^k ≤ n < 2^(k+1)` for `n ≥ 1`. -/
def natLog2 (n : Nat) : Nat :=
  log2Fuel n n

/-- Binary exponent of a positive rational: the `e` with `2^e ≤ q < 2^(e+1)`,
found from the binary logarithms of numerator and denominator. -/
def floorLog2 (q : ℚ) : ℤ :=
  let e0 : ℤ := (natLog2 q.num.natAbs : ℤ) - (natLog2 q.den : ℤ)
  if (2 : ℚ) ^ e0 ≤ q then e0 else e0 - 1

/-- Exponent of the spacing of binary64 numbers around `q`: `e - 52` when
`2^e ≤ |q| < 2^(e+1)`, and never below `-1074`, the subnormal spacing. -/
def ulpExp (q : ℚ) : ℤ :=
  max (floorLog2 (abs q) - 52) (-1074)

/-- Rounding of the exact value `q` to binary64 precision, to nearest with ties
to even; the exponent range is not bounded above here, see `flo`. -/
def fl (q : ℚ) : ℚ :=
  (roundEven (q / 2 ^ ulpExp q) : ℚ) * 2 ^ ulpExp q

/-- Result of a binary64 operation whose exact value is `q`: the rounded value,
or `none` when it overflows to an infinity. -/
def flo (q : ℚ) : Option ℚ :=
  if abs (fl q) < 2 ^ 1024 then some (fl q) else none

/-- Vector whose components are results of double arithmetic and may be
non-finite. -/
structure oVector3d where
  x : Option ℚ
  y : Option ℚ
  z : Option ℚ
deriving DecidableEq

/-- A finite vector seen as a vector of possibly non-finite doubles. -/
def cVector3d.toO (a : cVector3d) : oVector3d :=
  ⟨some a.x, some a.y, some a.z⟩

/-- Sum of a finite double and a possibly non-finite one. -/
def addD (a : ℚ) (b : Option ℚ) : Option ℚ :=
  b.bind fun v => flo (a + v)

/-- Component-wise sum in doubles, chai3d's `cAdd`, of a finite vector and a
vector that may be non-finite. -/
def cAddD (a : cVector3d) (b : oVector3d) : oVector3d :=
  ⟨addD a.x b.x, addD a.y b.y, addD a.z b.z⟩

/-- Source lines 451-456 in doubles: the product, the sum, `operand + 1` and
the quotient are each rounded; a non-finite accumulator, an overflow or a zero
divisor gives a non-finite result. -/
def runningAverageD (prev_a : Option ℚ) (a operand : ℚ) : Option ℚ :=
  prev_a.bind fun p =>
    (flo (p * operand)).bind fun t1 =>
      (flo (t1 + a)).bind fun t2 =>
        (flo (operand + 1)).bind fun d =>
          if d = 0 then none else flo (t2 / d)

/-- Limit values of lines 538-540 as the doubles the literal `.05` denotes. -/
def limxD : ℚ := fl 0.05
def limyD : ℚ := fl 0.05
def limzD : ℚ := fl 0.05

/-- Variables of `updateHaptics` in the binary64 model; as `HapticState`, with
the accumulators and the computed vectors allowed to be non-finite. -/
structure DState where
  loc : Loc
  simulationRunning : Bool
  simulationFinished : Bool
  cnt : Int
  operand : ℚ
  prevLinearVelocity : cVector3d
  avgLinearVelocity : oVector3d
  linearVelocity : cVector3d
  px : ℚ
  py : ℚ
  pz : ℚ
  cx : ℚ
  cy : ℚ
  cz : ℚ
  avgx : Option ℚ
  avgy : Option ℚ
  avgz : Option ℚ
  velocityA : cVector3d
  velocityB : oVector3d
  avgVelocityA : cVector3d
  avgVelocityB : oVector3d
  cursorPos : cVector3d
  predictIndicatorPos : oVector3d
  hapticDevicePosition : cVector3d
  polls : Nat
  signals : Nat

/-- One `if ( abs(p-c) >= .009 )` of lines 591-614 in doubles: the difference
is rounded and `.009` is the double the literal denotes. -/
def jitterCheckD (pa ca : ℚ) (lp : cVector3d × cVector3d) : cVector3d × cVector3d :=
  if abs (fl (pa - ca)) ≥ fl 0.009 then
    (lp.2, lp.2)
  else
    (lp.1, lp.1)

/-- Lines 577-614 in doubles, see `jitterFilter`. -/
def jitterFilterD (prev : cVector3d) (cx cy cz : ℚ) : cVector3d × cVector3d :=
  let linearVelocity : cVector3d := ⟨cx, cy, cz⟩
  let px := prev.x
  let py := prev.y
  let pz := prev.z
  let prevLinearVelocity : cVector3d := ⟨px, py, pz⟩
  let lp := jitterCheckD px cx (linearVelocity, prevLinearVelocity)
  let lp := jitterCheckD py cy lp
  let lp := jitterCheckD pz cz lp
  lp

/-- Body of the `for` loop, lines 552-667, in doubles. -/
def loopBodyD (smp : Sample) (s : DState) : DState :=
  let operand : ℚ := (s.cnt : ℚ)
  let position := smp.position
  let cx := axisUpperLim smp.linearVelocity.x limxD
  let cy := axisUpperLim smp.linearVelocity.y limyD
  let cz := axisUpperLim smp.linearVelocity.z limzD
  let px := s.prevLinearVelocity.x
  let py := s.prevLinearVelocity.y
  let pz := s.prevLinearVelocity.z
  let avgx := runningAverageD s.avgx cx operand
  let avgy := runningAverageD s.avgy cy operand
  let avgz := runningAverageD s.avgz cz operand
  let avgLinearVelocity : oVector3d := ⟨avgx, avgy, avgz⟩
  let lp := jitterFilterD s.prevLinearVelocity cx cy cz
  let linearVelocity := lp.1
  let prevLinearVelocity := lp.2
  -- reset predict location if velocity low (lines 659-664)
  let low : Bool := decide (fl (fl (abs cx + abs cy) + abs cz) < fl 0.001)
  { s with
    operand := operand
    px := px
    py := py
    pz := pz
    avgx := avgx
    avgy := avgy
    avgz := avgz
    avgLinearVelocity := avgLinearVelocity
    linearVelocity := linearVelocity
    prevLinearVelocity := prevLinearVelocity
    velocityA := position
    velocityB := cAddD position linearVelocity.toO
    avgVelocityA := position
    avgVelocityB := cAddD position avgLinearVelocity
    cursorPos := position
    predictIndicatorPos :=
      if low then position.toO else cAddD position linearVelocity.toO
    hapticDevicePosition := position
    cx := if low then 0 else cx
    cy := if low then 0 else cy
    cz := if low then 0 else cz
    polls := s.polls + 1
    signals := s.signals + 1 }

/-- Lines 669-671 on a `DState`. -/
def wrapCntD (s : DState) : DState :=
  if s.cnt = 30 then { s with cnt := 0 } else s

/-- The `cnt++` of line 551 on a `DState`. -/
def forIncrementD (s : DState) : DState :=
  { s with cnt := s.cnt + 1 }

/-- One pass of the `for` loop in doubles: body, wrap, increment. -/
def iterationD (smp : Sample) (s : DState) : DState :=
  forIncrementD (wrapCntD (loopBodyD smp s))

/-- One step of `updateHaptics` in doubles; control flow as in `step`. -/
def stepD (dev : Nat → Sample) (stop : Bool) (s : DState) : DState :=
  let s := if stop then { s with simulationRunning := false } else s
  match s.loc with
  | Loc.whileTest =>
    if s.simulationRunning then
      { s with cnt := 0, loc := Loc.forTest }
    else
      { s with simulationFinished := true, loc := Loc.finished }
  | Loc.forTest =>
    if s.cnt ≤ 30 then iterationD (dev s.polls) s
    else { s with loc := Loc.whileTest }
  | Loc.finished => s

/-- Run the loop in doubles for one step per entry of `stops`. -/
def runD (dev : Nat → Sample) : List Bool → DState → DState
  | [], s => s
  | stop :: stops, s => runD dev stops (stepD dev stop s)

/-- State on reaching the `while` for the first time (lines 509-540) in the
binary64 model; `g` holds the contents of the uninitialised variables. -/
def initStateD (g : DState) : DState :=
  { g with
    loc := Loc.whileTest
    simulationRunning := true
    simulationFinished := false
    prevLinearVelocity := ⟨0.0, 0.0, 0.0⟩
    polls := 0
    signals := 0 }

/-- A memory whose uninitialised cells hold the accumulator contents `a` and
zero elsewhere. -/
def memoryD (a : Option ℚ) : DState :=
  { loc := Loc.whileTest, simulationRunning := false, simulationFinished := true,
    cnt := 0, operand := 0,
    prevLinearVelocity := ⟨0, 0, 0⟩, avgLinearVelocity := ⟨a, a, a⟩,
    linearVelocity := ⟨0, 0, 0⟩,
    px := 0, py := 0, pz := 0, cx := 0, cy := 0, cz := 0,
    avgx := a, avgy := a, avgz := a,
    velocityA := ⟨0, 0, 0⟩, velocityB := ⟨some 0, some 0, some 0⟩,
    avgVelocityA := ⟨0, 0, 0⟩, avgVelocityB := ⟨some 0, some 0, some 0⟩,
    cursorPos := ⟨0, 0, 0⟩, predictIndicatorPos := ⟨some 0, some 0, some 0⟩,
    hapticDevicePosition := ⟨0, 0, 0⟩, polls := 0, signals := 0 }

/-- Control is inside the `for` loop with a valid index (binary64 model). -/
def InLoopD (s : DState) : Prop :=
  s.loc = Loc.forTest ∧ 0 ≤ s.cnt ∧ s.cnt ≤ 30 ∧ s.simulationFinished = false

/-- The double the literal `0.02` denotes, on the three axes. -/
def v002D : cVector3d := ⟨fl 0.02, fl 0.02, fl 0.02⟩

/-- Allowance for accumulated rounding in the running average. -/
def avgSlack : ℚ := 1 / 10 ^ 15

/-- State of the binary64 model after `k` passes when the running flag is
never cleared. -/
def afterIterationsD (dev : Nat → Sample) (g : DState) (k : Nat) : DState :=
  runD dev (List.replicate (k + 1) false) (initStateD g)

/-- Every component of `v` lies between minus and plus the double `.05`. -/
def withinLimitD (v : cVector3d) : Prop :=
  (-limxD ≤ v.x ∧ v.x ≤ limxD) ∧ (-limyD ≤ v.y ∧ v.y ≤ limyD)
  ∧ (-limzD ≤ v.z ∧ v.z ≤ limzD)

instance (v : cVector3d) : Decidable (withinLimitD v) := by
  unfold withinLimitD
  infer_instance

/-- A device held at position `(1, 0, 0)` whose raw x velocity climbs by the
double nearest `0.008 * (k + 1)` at poll `k`. -/
def rampDevice : Nat → Sample :=
  fun k => ⟨⟨1, 0, 0⟩, ⟨fl (0.008 * ((k : ℚ) + 1)), 0, 0⟩⟩

/-- The accumulator `a` holds a finite double within `avgSlack` of the interval
`[lo, hi]`. -/
def withinSlack (a : Option ℚ) (lo hi : ℚ) : Prop :=
  match a with
  | some v => lo - avgSlack ≤ v ∧ v ≤ hi + avgSlack
  | none => False

instance (a : Option ℚ) (lo hi : ℚ) : Decidable (withinSlack a lo hi) :=
  match a with
  | some v => inferInstanceAs (Decidable (lo - avgSlack ≤ v ∧ v ≤ hi + avgSlack))
  | none => inferInstanceAs (Decidable False)

/-- The coordinate `q` of the predicted position is a finite double that
differs from the coordinate `p` of the position by at most `lim` plus the
rounding error of the sum, `(|p| + lim) / 2^53 + 1 / 2^1075`. -/
def nearAxisD (q : Option ℚ) (p lim : ℚ) : Prop :=
  match q with
  | some v => abs (v - p) ≤ lim + (abs p + lim) / 2 ^ 53 + 1 / 2 ^ 1075
  | none => False

instance (q : Option ℚ) (p lim : ℚ) : Decidable (nearAxisD q p lim) :=
  match q with
  | some v =>
    inferInstanceAs (Decidable (abs (v - p) ≤ lim + (abs p + lim) / 2 ^ 53 + 1 / 2 ^ 1075))
  | none => inferInstanceAs (Decidable False)

/-- Every coordinate of the device position is at most `2^999` in size, far
from the overflow threshold of binary64. -/
def positionInRange (p : cVector3d) : Prop :=
  abs p.x ≤ 2 ^ 999 ∧ abs p.y ≤ 2 ^ 999 ∧ abs p.z ≤ 2 ^ 999

instance (p : cVector3d) : Decidable (positionInRange p) := by
  unfold positionInRange
  infer_instance

/-- Velocity held by the filter after `k` passes on `rampDevice`: 0 at the
start, then the clamped reading of pass `k`. -/
def rampHeld : Nat → ℚ
  | 0 => 0
  | k + 1 => axisUpperLim (fl (0.008 * ((k : ℚ) + 1))) limxD

/-- A memory whose stored previous velocity is `v`. -/
def withPrev (v : cVector3d) : DState :=
  { memoryD none with prevLinearVelocity := v }

/-! ## Clamp -/

/-- C4: for every value `v` and limit `L ≥ 0`, `axisUpperLim v L` is `L` when
`v > L`, `-L` when `v < -L` and `v` otherwise; so it lies in `[-L, L]` and is
`v` whenever `|v| ≤ L`. -/
theorem axisUpperLim_clamp (v L : ℚ) (hL : 0 ≤ L) :
    axisUpperLim v L = (if v > L then L else if v < -L then -L else v)
    ∧ -L ≤ axisUpperLim v L ∧ axisUpperLim v L ≤ L
    ∧ (abs v ≤ L → axisUpperLim v L = v) := by
  unfold axisUpperLim
  refine ⟨?_, ?_, ?_, ?_⟩
  · by_cases h1 : v > L
    · have h2 : ¬ L < -L := by linarith
      simp [h1, h2]
    · simp [h1]
  · by_cases h1 : v > L
    · have h2 : ¬ L < -L := by linarith
      simp only [h1, h2, if_true, if_false]; linarith
    · by_cases h3 : v < -L
      · simp [h1, h3]
      · simp only [h1, h3, if_false]; linarith
  · by_cases h1 : v > L
    · have h2 : ¬ L < -L := by linarith
      simp [h1, h2]
    · by_cases h3 : v < -L
      · simp only [h1, h3, if_true, if_false]; linarith
      · simp only [h1, h3, if_false]; linarith
  · intro hv
    have h := abs_le.mp hv
    have h1 : ¬ v > L := by linarith [h.2]
    have h3 : ¬ v < -L := by linarith [h.1]
    simp [h1, h3]

/-- Witness of C4 at `v = 0.07`, `L = 0.05`. -/
theorem axisUpperLim_clamp_witness :
    (0 : ℚ) ≤ 0.05 ∧ axisUpperLim 0.07 0.05 = 0.05 := by
  have h : (0 : ℚ) ≤ 0.05 := by norm_num
  refine ⟨h, ?_⟩
  rw [(axisUpperLim_clamp 0.07 0.05 h).1]
  norm_num

/-! ## Jitter filter -/

theorem jitterCheck_of_eq (pa ca : ℚ) (lp : cVector3d × cVector3d) (h : lp.1 = lp.2) :
    jitterCheck pa ca lp = lp := by
  unfold jitterCheck
  split_ifs
  · exact Prod.ext h.symm rfl
  · exact Prod.ext rfl h

theorem jitterCheck_fst_eq_snd (pa ca : ℚ) (lp : cVector3d × cVector3d) :
    (jitterCheck pa ca lp).1 = (jitterCheck pa ca lp).2 := by
  unfold jitterCheck
  split_ifs <;> rfl

theorem jitterFilter_eq_first (p : cVector3d) (cx cy cz : ℚ) :
    jitterFilter p cx cy cz = jitterCheck p.x cx (⟨cx, cy, cz⟩, p) := by
  unfold jitterFilter
  simp only []
  rw [jitterCheck_of_eq p.z cz, jitterCheck_of_eq p.y cy]
  · exact jitterCheck_fst_eq_snd _ _ _
  · rw [jitterCheck_of_eq p.y cy _ (jitterCheck_fst_eq_snd _ _ _)]
    exact jitterCheck_fst_eq_snd _ _ _

theorem jitterFilter_eq_xAxisCheck (p : cVector3d) (cx cy cz : ℚ) :
    jitterFilter p cx cy cz = xAxisCheck p ⟨cx, cy, cz⟩ := by
  rw [jitterFilter_eq_first]
  unfold jitterCheck xAxisCheck
  split_ifs <;> rfl

theorem loopBody_linearVelocity (smp : Sample) (s : HapticState) :
    (loopBody smp s).linearVelocity
      = (xAxisCheck s.prevLinearVelocity (clampedVelocity smp)).1 := by
  simp only [loopBody, clampedVelocity, jitterFilter_eq_xAxisCheck]

theorem loopBody_prevLinearVelocity (smp : Sample) (s : HapticState) :
    (loopBody smp s).prevLinearVelocity
      = (xAxisCheck s.prevLinearVelocity (clampedVelocity smp)).2 := by
  simp only [loopBody, clampedVelocity, jitterFilter_eq_xAxisCheck]

/-- C10: in one pass of the loop body the filtered velocity and the new stored
previous velocity are given by the x-axis test alone: both are the old stored
vector `p` when `|p.x - c.x| ≥ 0.009` and both are the clamped reading `c`
otherwise; the y and z tests leave the pair produced by the x test unchanged. -/
theorem jitter_checks_eq_x_check (smp : Sample) (s : HapticState) :
    ((loopBody smp s).linearVelocity, (loopBody smp s).prevLinearVelocity)
        = xAxisCheck s.prevLinearVelocity (clampedVelocity smp)
    ∧ (loopBody smp s).linearVelocity = (loopBody smp s).prevLinearVelocity
    ∧ ((loopBody smp s).linearVelocity
        = if abs (s.prevLinearVelocity.x - (clampedVelocity smp).x) ≥ 0.009
          then s.prevLinearVelocity else clampedVelocity smp)
    ∧ (∀ py cy pz cz : ℚ,
        jitterCheck pz cz (jitterCheck py cy
            (jitterCheck s.prevLinearVelocity.x (clampedVelocity smp).x
              (clampedVelocity smp, s.prevLinearVelocity)))
          = jitterCheck s.prevLinearVelocity.x (clampedVelocity smp).x
              (clampedVelocity smp, s.prevLinearVelocity)) := by
  refine ⟨?_, ?_, ?_, ?_⟩
  · rw [loopBody_linearVelocity, loopBody_prevLinearVelocity]
  · rw [loopBody_linearVelocity, loopBody_prevLinearVelocity]
    unfold xAxisCheck
    split_ifs <;> rfl
  · rw [loopBody_linearVelocity]
    unfold xAxisCheck
    split_ifs <;> rfl
  · intro py cy pz cz
    rw [jitterCheck_of_eq pz cz, jitterCheck_of_eq py cy]
    · exact jitterCheck_fst_eq_snd _ _ _
    · rw [jitterCheck_of_eq py cy _ (jitterCheck_fst_eq_snd _ _ _)]
      exact jitterCheck_fst_eq_snd _ _ _

/-! ## Predicted position -/

theorem predicted_position_aux (smp : Sample) (s : HapticState) :
    (loopBody smp s).predictIndicatorPos
        = (if abs (clampedVelocity smp).x + abs (clampedVelocity smp).y
                + abs (clampedVelocity smp).z < 0.001
           then smp.position
           else cAdd smp.position (loopBody smp s).linearVelocity) := by
  simp only [loopBody, clampedVelocity]
  split_ifs <;> simp_all

/-- C3: the position given to `predictIndicator` at the end of a pass is the
device position when `|cx| + |cy| + |cz| < 0.001` for the clamped reading, and
otherwise the device position plus the output of the jitter filter; replacing
the running-average variables by any other values does not change it. -/
theorem predicted_position (smp : Sample) (s : HapticState) :
    (loopBody smp s).predictIndicatorPos
        = (if abs (clampedVelocity smp).x + abs (clampedVelocity smp).y
                + abs (clampedVelocity smp).z < 0.001
           then smp.position
           else cAdd smp.position (loopBody smp s).linearVelocity)
    ∧ (loopBody smp s).linearVelocity
        = (jitterFilter s.prevLinearVelocity (clampedVelocity smp).x
            (clampedVelocity smp).y (clampedVelocity smp).z).1
    ∧ (∀ (a b c : ℚ) (v : cVector3d),
        (loopBody smp { s with avgx := a, avgy := b, avgz := c,
                               avgLinearVelocity := v }).predictIndicatorPos
          = (loopBody smp s).predictIndicatorPos) := by
  refine ⟨predicted_position_aux smp s, ?_, ?_⟩
  · simp only [loopBody, clampedVelocity]
  · intro a b c v
    simp only [loopBody]

/-! ## The loop as a machine -/

theorem iteration_eq (smp : Sample) (t : HapticState) :
    iteration smp t = { loopBody smp t with cnt := nextCnt t.cnt } := by
  unfold iteration forIncrement wrapCnt nextCnt
  have hc : (loopBody smp t).cnt = t.cnt := rfl
  rw [hc]
  split_ifs <;> simp [hc]

theorem step_forTest (dev : Nat → Sample) (b : Bool) (s : HapticState)
    (hl : s.loc = Loc.forTest) (hc : s.cnt ≤ 30) :
    step dev b s
      = { loopBody (dev s.polls) s with
          cnt := nextCnt s.cnt
          simulationRunning := if b then false else s.simulationRunning } := by
  cases b <;> simp [step, hl, hc, iteration_eq, loopBody]

theorem nextCnt_range (c : Int) (h0 : 0 ≤ c) (h30 : c ≤ 30) :
    1 ≤ nextCnt c ∧ nextCnt c ≤ 30 := by
  unfold nextCnt
  split_ifs <;> omega

theorem step_inLoop (dev : Nat → Sample) (b : Bool) (s : HapticState) (h : InLoop s) :
    InLoop (step dev b s) ∧ (step dev b s).cnt = nextCnt s.cnt := by
  obtain ⟨hl, h0, h30, hf⟩ := h
  rw [step_forTest dev b s hl h30]
  have := nextCnt_range s.cnt h0 h30
  refine ⟨⟨?_, ?_, ?_, ?_⟩, rfl⟩
  · simpa [loopBody] using hl
  · show 0 ≤ nextCnt s.cnt
    omega
  · exact this.2
  · simpa [loopBody] using hf

theorem run_inLoop (dev : Nat → Sample) (stops : List Bool) :
    ∀ s : HapticState, InLoop s → InLoop (run dev stops s) := by
  induction stops with
  | nil => intro s h; exact h
  | cons b bs ih => intro s h; exact ih _ (step_inLoop dev b s h).1

theorem run_append (dev : Nat → Sample) (l1 l2 : List Bool) :
    ∀ s : HapticState, run dev (l1 ++ l2) s = run dev l2 (run dev l1 s) := by
  induction l1 with
  | nil => intro s; rfl
  | cons b bs ih => intro s; exact ih _

theorem step_init (dev : Nat → Sample) (g : HapticState) :
    step dev false (initState g) = { initState g with cnt := 0, loc := Loc.forTest } := by
  simp [step, initState]

theorem inLoop_entered (dev : Nat → Sample) (g : HapticState) :
    InLoop (step dev false (initState g)) := by
  rw [step_init]
  exact ⟨rfl, le_refl _, by norm_num, rfl⟩

theorem step_cntInRange (dev : Nat → Sample) (b : Bool) (s : HapticState)
    (h : CntInRange s) : CntInRange (step dev b s) := by
  intro hl
  cases hloc : s.loc with
  | whileTest =>
    cases b <;> cases hr : s.simulationRunning <;> simp [step, hloc, hr] at hl ⊢
  | forTest =>
    by_cases hc : s.cnt ≤ 30
    · have h0 := (h hloc).1
      have hr := nextCnt_range s.cnt h0 hc
      rw [step_forTest dev b s hloc hc]
      show 0 ≤ nextCnt s.cnt ∧ nextCnt s.cnt ≤ 30
      omega
    · cases b <;> simp [step, hloc, hc] at hl
  | finished =>
    cases b <;> simp [step, hloc] at hl

theorem run_cntInRange (dev : Nat → Sample) (stops : List Bool) :
    ∀ s : HapticState, CntInRange s → CntInRange (run dev stops s) := by
  induction stops with
  | nil => intro s h; exact h
  | cons b bs ih => intro s h; exact ih _ (step_cntInRange dev b s h)

theorem run_counts (dev : Nat → Sample) (stops : List Bool) :
    ∀ s : HapticState, InLoop s →
      (run dev stops s).signals = s.signals + stops.length
      ∧ (run dev stops s).polls = s.polls + stops.length := by
  induction stops with
  | nil => intro s _; exact ⟨rfl, rfl⟩
  | cons b bs ih =>
    intro s h
    have h1 := ih _ (step_inLoop dev b s h).1
    have hs : (step dev b s).signals = s.signals + 1 ∧ (step dev b s).polls = s.polls + 1 := by
      rw [step_forTest dev b s h.1 h.2.2.1]
      exact ⟨rfl, rfl⟩
    simp only [run, List.length_cons]
    rw [h1.1, h1.2, hs.1, hs.2]
    omega

theorem run_cnt (dev : Nat → Sample) (stops : List Bool) :
    ∀ s : HapticState, InLoop s →
      (run dev stops s).cnt = nextCnt^[stops.length] s.cnt := by
  induction stops with
  | nil => intro s _; rfl
  | cons b bs ih =>
    intro s h
    have h1 := step_inLoop dev b s h
    simp only [run, List.length_cons, Function.iterate_succ_apply]
    rw [ih _ h1.1, h1.2]

theorem nextCnt_iterate_zero (k : Nat) :
    nextCnt^[k] 0 = if k = 0 then 0 else (((k - 1) % 30 + 1 : Nat) : Int) := by
  induction k with
  | zero => rfl
  | succ n ih =>
    rw [Function.iterate_succ_apply', ih]
    unfold nextCnt
    by_cases hn : n = 0
    · subst hn; norm_num
    · simp only [hn, if_false, Nat.succ_ne_zero, Nat.add_sub_cancel]
      split_ifs <;> omega

theorem step_operand (dev : Nat → Sample) (b : Bool) (s : HapticState) (h : InLoop s) :
    (step dev b s).operand = (s.cnt : ℚ) := by
  rw [step_forTest dev b s h.1 h.2.2.1]
  rfl

theorem afterIterations_succ (dev : Nat → Sample) (g : HapticState) (k : Nat) :
    afterIterations dev g (k + 1) = step dev false (afterIterations dev g k) := by
  unfold afterIterations
  have hr : List.replicate (k + 1 + 1) false = List.replicate (k + 1) false ++ [false] := by
    rw [List.replicate_succ' (k + 1)]
  rw [hr, run_append]
  rfl

theorem afterIterations_inLoop (dev : Nat → Sample) (g : HapticState) (k : Nat) :
    InLoop (afterIterations dev g k) := by
  unfold afterIterations
  rw [List.replicate_succ]
  show InLoop (run dev (List.replicate k false) (step dev false (initState g)))
  exact run_inLoop dev _ _ (inLoop_entered dev g)

theorem afterIterations_cnt (dev : Nat → Sample) (g : HapticState) (k : Nat) :
    (afterIterations dev g k).cnt
      = if k = 0 then 0 else (((k - 1) % 30 + 1 : Nat) : Int) := by
  unfold afterIterations
  rw [List.replicate_succ]
  show (run dev (List.replicate k false) (step dev false (initState g))).cnt = _
  rw [run_cnt dev _ _ (inLoop_entered dev g), List.length_replicate, step_init]
  exact nextCnt_iterate_zero k

/-! ## Index schedule and the stop flag -/

/-- C6 evaluated: the index used as weight by pass number `k` (counted from 0)
is 0 for `k = 0` and `(k - 1) % 30 + 1` afterwards; the pass with index 30
(pass 30) is followed by a pass with index 1, not 0, and index 0 occurs on the
first pass only. -/
theorem index_schedule (dev : Nat → Sample) (g : HapticState) :
    (∀ k : Nat, (afterIterations dev g (k + 1)).operand
        = if k = 0 then 0 else (((k - 1) % 30 + 1 : Nat) : ℚ))
    ∧ (afterIterations dev g 31).operand = 30
    ∧ (afterIterations dev g 32).operand = 1
    ∧ (∀ k : Nat, (afterIterations dev g (k + 2)).operand ≠ 0) := by
  have key : ∀ k : Nat, (afterIterations dev g (k + 1)).operand
      = if k = 0 then 0 else (((k - 1) % 30 + 1 : Nat) : ℚ) := by
    intro k
    rw [afterIterations_succ, step_operand dev false _ (afterIterations_inLoop dev g k),
      afterIterations_cnt]
    split_ifs
    · simp
    · exact Int.cast_natCast _
  refine ⟨key, ?_, ?_, ?_⟩
  · rw [key 30]; norm_num
  · rw [key 31]; norm_num
  · intro k
    rw [key (k + 1)]
    simp only [Nat.succ_ne_zero, if_false]
    have : (0 : ℚ) < (((k + 1 - 1) % 30 + 1 : Nat) : ℚ) := by
      exact_mod_cast Nat.succ_pos _
    exact ne_of_gt this

/-- Once the `while` test has been passed, control stays inside the `for`
whatever the running flag becomes: after any flag history `stops` it is at the
`for` test, `simulationFinished` is still false, and one device sample has been
processed per step; this holds in particular when the flag is cleared before
every one of those steps. -/
theorem loop_never_observes_stop (dev : Nat → Sample) (g : HapticState) :
    (∀ stops : List Bool,
        (run dev (false :: stops) (initState g)).loc = Loc.forTest
        ∧ (run dev (false :: stops) (initState g)).simulationFinished = false
        ∧ (run dev (false :: stops) (initState g)).signals = stops.length
        ∧ (run dev (false :: stops) (initState g)).polls = stops.length)
    ∧ (∀ n : Nat,
        (run dev (false :: List.replicate (n + 1) true) (initState g)).simulationRunning
            = false
        ∧ (run dev (false :: List.replicate (n + 1) true) (initState g)).loc = Loc.forTest
        ∧ (run dev (false :: List.replicate (n + 1) true) (initState g)).signals = n + 1) := by
  have hin := inLoop_entered dev g
  have hall : ∀ stops : List Bool,
        (run dev (false :: stops) (initState g)).loc = Loc.forTest
        ∧ (run dev (false :: stops) (initState g)).simulationFinished = false
        ∧ (run dev (false :: stops) (initState g)).signals = stops.length
        ∧ (run dev (false :: stops) (initState g)).polls = stops.length := by
    intro stops
    show (run dev stops (step dev false (initState g))).loc = Loc.forTest ∧ _
    have h := run_inLoop dev stops _ hin
    have hc := run_counts dev stops _ hin
    refine ⟨h.1, h.2.2.2, ?_, ?_⟩
    · show (run dev stops (step dev false (initState g))).signals = _
      rw [hc.1, step_init]; simp [initState]
    · show (run dev stops (step dev false (initState g))).polls = _
      rw [hc.2, step_init]; simp [initState]
  refine ⟨hall, ?_⟩
  intro n
  have h := hall (List.replicate (n + 1) true)
  refine ⟨?_, h.1, ?_⟩
  · show (run dev (List.replicate (n + 1) true) (step dev false (initState g))).simulationRunning
        = false
    rw [List.replicate_succ' n, run_append]
    have hn := run_inLoop dev (List.replicate n true) _ hin
    show (step dev true _).simulationRunning = false
    rw [step_forTest dev true _ hn.1 hn.2.2.1]
    rfl
  · rw [h.2.2.1, List.length_replicate]

/-- C9: in every state the loop can reach from its initial state, if control
is at the test of the `for` then `cnt` is between 0 and 30, so the body run
there calls `runningAverage` with `operand = cnt`, `operand + 1 ≥ 1` and a
non-zero divisor. -/
theorem index_in_range (dev : Nat → Sample) (g : HapticState) (stops : List Bool)
    (hl : (run dev stops (initState g)).loc = Loc.forTest) :
    0 ≤ (run dev stops (initState g)).cnt
    ∧ (run dev stops (initState g)).cnt ≤ 30
    ∧ (loopBody (dev (run dev stops (initState g)).polls)
          (run dev stops (initState g))).operand
        = ((run dev stops (initState g)).cnt : ℚ)
    ∧ (loopBody (dev (run dev stops (initState g)).polls)
          (run dev stops (initState g))).operand + 1 ≥ 1
    ∧ (loopBody (dev (run dev stops (initState g)).polls)
          (run dev stops (initState g))).operand + 1 ≠ 0 := by
  have hinit : CntInRange (initState g) := by
    intro h
    simp [initState] at h
  have h := run_cntInRange dev stops _ hinit hl
  have hop : (loopBody (dev (run dev stops (initState g)).polls)
      (run dev stops (initState g))).operand
        = ((run dev stops (initState g)).cnt : ℚ) := rfl
  have hq : (0 : ℚ) ≤ ((run dev stops (initState g)).cnt : ℚ) := by exact_mod_cast h.1
  refine ⟨h.1, h.2, hop, ?_, ?_⟩
  · rw [hop]; linarith
  · rw [hop]; linarith

/-- Witness of C9: the state after the `while` test and two passes. -/
theorem index_in_range_witness :
    (run (constDevice ⟨0, 0, 0⟩ v002) [false, false, false] (initState zeroState)).loc
        = Loc.forTest
    ∧ 0 ≤ (run (constDevice ⟨0, 0, 0⟩ v002) [false, false, false] (initState zeroState)).cnt
    ∧ (run (constDevice ⟨0, 0, 0⟩ v002) [false, false, false] (initState zeroState)).cnt
        ≤ 30 := by
  have hl : (run (constDevice ⟨0, 0, 0⟩ v002) [false, false, false]
      (initState zeroState)).loc = Loc.forTest := by
    simp [run, step, initState, zeroState, iteration, forIncrement, wrapCnt, loopBody]
  have h := index_in_range (constDevice ⟨0, 0, 0⟩ v002) zeroState [false, false, false] hl
  exact ⟨hl, h.1, h.2.1⟩

/-! ## Field-wise effect of one pass -/

theorem step_fields (dev : Nat → Sample) (b : Bool) (s : HapticState) (h : InLoop s) :
    (step dev b s).linearVelocity
        = (xAxisCheck s.prevLinearVelocity (clampedVelocity (dev s.polls))).1
    ∧ (step dev b s).prevLinearVelocity
        = (xAxisCheck s.prevLinearVelocity (clampedVelocity (dev s.polls))).2
    ∧ (step dev b s).predictIndicatorPos = (loopBody (dev s.polls) s).predictIndicatorPos
    ∧ (step dev b s).polls = s.polls + 1 := by
  rw [step_forTest dev b s h.1 h.2.2.1]
  exact ⟨loopBody_linearVelocity _ _, loopBody_prevLinearVelocity _ _, rfl, rfl⟩

theorem step_avg (dev : Nat → Sample) (b : Bool) (s : HapticState) (h : InLoop s) :
    (step dev b s).avgx
        = runningAverage s.avgx (clampedVelocity (dev s.polls)).x (s.cnt : ℚ)
    ∧ (step dev b s).avgy
        = runningAverage s.avgy (clampedVelocity (dev s.polls)).y (s.cnt : ℚ)
    ∧ (step dev b s).avgz
        = runningAverage s.avgz (clampedVelocity (dev s.polls)).z (s.cnt : ℚ)
    ∧ (step dev b s).avgLinearVelocity
        = ⟨(step dev b s).avgx, (step dev b s).avgy, (step dev b s).avgz⟩
    ∧ (step dev b s).cx
        = (if abs (clampedVelocity (dev s.polls)).x + abs (clampedVelocity (dev s.polls)).y
              + abs (clampedVelocity (dev s.polls)).z < 0.001
           then 0 else (clampedVelocity (dev s.polls)).x) := by
  rw [step_forTest dev b s h.1 h.2.2.1]
  refine ⟨rfl, rfl, rfl, rfl, ?_⟩
  simp only [loopBody, clampedVelocity]
  split_ifs <;> simp_all

theorem afterIterations_zero (dev : Nat → Sample) (g : HapticState) :
    afterIterations dev g 0 = { initState g with cnt := 0, loc := Loc.forTest } := by
  unfold afterIterations
  exact step_init dev g

theorem afterIterations_polls (dev : Nat → Sample) (g : HapticState) (k : Nat) :
    (afterIterations dev g k).polls = k := by
  induction k with
  | zero => rw [afterIterations_zero]; rfl
  | succ n ih =>
    rw [afterIterations_succ, (step_fields dev false _ (afterIterations_inLoop dev g n)).2.2.2, ih]

theorem axisUpperLim_of_abs_le (v L : ℚ) (h : abs v ≤ L) : axisUpperLim v L = v := by
  have hb := abs_le.mp h
  have h1 : ¬ v > L := by linarith [hb.2]
  have h3 : ¬ v < -L := by linarith [hb.1]
  simp [axisUpperLim, h1, h3]

theorem clampedVelocity_v002 (smp : Sample) (h : smp.linearVelocity = v002) :
    clampedVelocity smp = v002 := by
  unfold clampedVelocity
  rw [h]
  have e : axisUpperLim (0.02 : ℚ) 0.05 = 0.02 :=
    axisUpperLim_of_abs_le _ _ (by norm_num [abs_le])
  simp only [v002, limx, limy, limz, e]

theorem cAdd_zero (a : cVector3d) : cAdd a ⟨0, 0, 0⟩ = a := by
  simp [cAdd]

/-- While the device reports `(0.02, 0.02, 0.02)`, one pass from a stored
previous velocity of zero holds zero and publishes the bare position. -/
theorem step_held_at_zero (dev : Nat → Sample) (b : Bool) (s : HapticState) (h : InLoop s)
    (hp : s.prevLinearVelocity = ⟨0, 0, 0⟩) (hv : (dev s.polls).linearVelocity = v002) :
    (step dev b s).linearVelocity = ⟨0, 0, 0⟩
    ∧ (step dev b s).prevLinearVelocity = ⟨0, 0, 0⟩
    ∧ (step dev b s).predictIndicatorPos = (dev s.polls).position := by
  have hf := step_fields dev b s h
  have hc := clampedVelocity_v002 _ hv
  have hx : xAxisCheck s.prevLinearVelocity (clampedVelocity (dev s.polls))
      = (⟨0, 0, 0⟩, ⟨0, 0, 0⟩) := by
    rw [hp, hc]
    have : abs ((0 : ℚ) - 0.02) ≥ 0.009 := by norm_num [abs_of_nonneg]
    unfold xAxisCheck
    simp only [v002]
    rw [if_pos this]
  have hlv : (loopBody (dev s.polls) s).linearVelocity = ⟨0, 0, 0⟩ := by
    rw [loopBody_linearVelocity, hx]
  refine ⟨by rw [hf.1, hx], by rw [hf.2.1, hx], ?_⟩
  rw [hf.2.2.1, (predicted_position_aux (dev s.polls) s), hc, hlv]
  have : ¬ (abs (0.02 : ℚ) + abs (0.02 : ℚ) + abs (0.02 : ℚ) < 0.001) := by
    norm_num [abs_of_nonneg]
  simp only [v002, this, if_false]
  exact cAdd_zero _

theorem initState_prev (g : HapticState) :
    (initState g).prevLinearVelocity = ⟨0, 0, 0⟩ := by
  have h : (0.0 : ℚ) = 0 := by norm_num
  simp only [initState, h]

theorem afterIterations_held (dev : Nat → Sample) (g : HapticState)
    (hv : ∀ k : Nat, (dev k).linearVelocity = v002) (k : Nat) :
    (afterIterations dev g k).prevLinearVelocity = ⟨0, 0, 0⟩ := by
  induction k with
  | zero => rw [afterIterations_zero]; exact initState_prev g
  | succ n ih =>
    rw [afterIterations_succ]
    exact (step_held_at_zero dev false _ (afterIterations_inLoop dev g n) ih (hv _)).2.1

theorem afterIterations_held_output (dev : Nat → Sample) (g : HapticState)
    (hv : ∀ k : Nat, (dev k).linearVelocity = v002) (k : Nat) :
    (afterIterations dev g (k + 1)).linearVelocity = ⟨0, 0, 0⟩
    ∧ (afterIterations dev g (k + 1)).predictIndicatorPos = (dev k).position := by
  have h := step_held_at_zero dev false _ (afterIterations_inLoop dev g k)
    (afterIterations_held dev g hv k) (hv _)
  rw [afterIterations_polls] at h
  rw [afterIterations_succ]
  exact ⟨h.1, h.2.2⟩

/-! ## Constant input, end to end -/

/-- C2 as stated fails: with the device at position `(0,0,0)` reporting
`(0.02, 0.02, 0.02)` at every poll, it is not the case that over the first 40
passes the filtered velocity is `(0.02, 0.02, 0.02)` from the second pass on and
the predicted position is the position plus `(0.02, 0.02, 0.02)`. -/
theorem constant_input_counterexample :
    ¬ (∀ k : Nat, 1 ≤ k → k ≤ 40 →
        ((2 ≤ k →
            (afterIterations (constDevice ⟨0, 0, 0⟩ v002) zeroState k).linearVelocity = v002)
          ∧ (afterIterations (constDevice ⟨0, 0, 0⟩ v002) zeroState k).predictIndicatorPos
              = cAdd ⟨0, 0, 0⟩ v002)) := by
  intro h
  have h2 := (h 2 (by norm_num) (by norm_num)).1 (le_refl 2)
  have hz := (afterIterations_held_output (constDevice ⟨0, 0, 0⟩ v002) zeroState
    (fun _ => rfl) 1).1
  rw [hz] at h2
  have hx := congrArg cVector3d.x h2
  norm_num [v002] at hx

/-- C2 amended: from the initial state (stored previous velocity `(0,0,0)`,
any contents of the uninitialised variables), if the raw velocity is
`(0.02, 0.02, 0.02)` at every poll, then after every pass (the first 40
included) the filtered velocity is `(0,0,0)`, the stored previous velocity is
still `(0,0,0)`, and the predicted position is the position read in that pass,
that is the position plus `(0,0,0)`. -/
theorem constant_input_held (dev : Nat → Sample) (g : HapticState)
    (hv : ∀ k : Nat, (dev k).linearVelocity = v002) (k : Nat) :
    (afterIterations dev g (k + 1)).linearVelocity = ⟨0, 0, 0⟩
    ∧ (afterIterations dev g (k + 1)).prevLinearVelocity = ⟨0, 0, 0⟩
    ∧ (afterIterations dev g (k + 1)).predictIndicatorPos = (dev k).position
    ∧ (afterIterations dev g (k + 1)).predictIndicatorPos
        = cAdd (dev k).position ⟨0, 0, 0⟩ := by
  have h := afterIterations_held_output dev g hv k
  refine ⟨h.1, afterIterations_held dev g hv (k + 1), h.2, ?_⟩
  rw [h.2, cAdd_zero]

/-- Witness of the amended C2: pass 40 of a device fixed at `(1, 2, 3)`. -/
theorem constant_input_held_witness :
    (∀ k : Nat, (constDevice ⟨1, 2, 3⟩ v002 k).linearVelocity = v002)
    ∧ (afterIterations (constDevice ⟨1, 2, 3⟩ v002) zeroState 40).linearVelocity = ⟨0, 0, 0⟩
    ∧ (afterIterations (constDevice ⟨1, 2, 3⟩ v002) zeroState 40).predictIndicatorPos
        = ⟨1, 2, 3⟩ :=
  ⟨fun _ => rfl,
   (constant_input_held (constDevice ⟨1, 2, 3⟩ v002) zeroState (fun _ => rfl) 39).1,
   (constant_input_held (constDevice ⟨1, 2, 3⟩ v002) zeroState (fun _ => rfl) 39).2.2.1⟩

/-! ## Evaluations of the jitter filter and of the dead zone -/

/-- C1 evaluated: from the initial state, a first reading `(0, 0, 0.02)` fails
the z test against the stored `(0,0,0)` (`|0 - 0.02| ≥ 0.009`), yet the pass
outputs the reading itself as filtered velocity and stores it, instead of
holding `(0,0,0)`. -/
theorem z_jitter_not_held (pos : cVector3d) (g : HapticState) :
    (afterIterations (constDevice pos ⟨0, 0, 0.02⟩) g 0).prevLinearVelocity = ⟨0, 0, 0⟩
    ∧ clampedVelocity (constDevice pos ⟨0, 0, 0.02⟩ 0) = ⟨0, 0, 0.02⟩
    ∧ abs ((⟨0, 0, 0⟩ : cVector3d).z - (⟨0, 0, 0.02⟩ : cVector3d).z) ≥ 0.009
    ∧ (afterIterations (constDevice pos ⟨0, 0, 0.02⟩) g 1).linearVelocity = ⟨0, 0, 0.02⟩
    ∧ (afterIterations (constDevice pos ⟨0, 0, 0.02⟩) g 1).prevLinearVelocity = ⟨0, 0, 0.02⟩
    ∧ (afterIterations (constDevice pos ⟨0, 0, 0.02⟩) g 1).linearVelocity
        ≠ (afterIterations (constDevice pos ⟨0, 0, 0.02⟩) g 0).prevLinearVelocity := by
  have h0 : (afterIterations (constDevice pos ⟨0, 0, 0.02⟩) g 0).prevLinearVelocity
      = ⟨0, 0, 0⟩ := by
    rw [afterIterations_zero]; exact initState_prev g
  have hc : clampedVelocity (constDevice pos ⟨0, 0, 0.02⟩ 0) = ⟨0, 0, 0.02⟩ := by
    have e0 : axisUpperLim (0 : ℚ) 0.05 = 0 :=
      axisUpperLim_of_abs_le _ _ (by norm_num)
    have e2 : axisUpperLim (0.02 : ℚ) 0.05 = 0.02 :=
      axisUpperLim_of_abs_le _ _ (by norm_num [abs_le])
    simp only [clampedVelocity, constDevice, limx, limy, limz, e0, e2]
  have hf := step_fields (constDevice pos ⟨0, 0, 0.02⟩) false _
    (afterIterations_inLoop (constDevice pos ⟨0, 0, 0.02⟩) g 0)
  rw [← afterIterations_succ, afterIterations_polls, h0] at hf
  rw [hc] at hf
  have hx : xAxisCheck ⟨0, 0, 0⟩ ⟨0, 0, 0.02⟩
      = ((⟨0, 0, 0.02⟩ : cVector3d), (⟨0, 0, 0.02⟩ : cVector3d)) := by
    have : ¬ (abs ((0 : ℚ) - 0) ≥ 0.009) := by norm_num
    unfold xAxisCheck
    rw [if_neg this]
  rw [hx] at hf
  refine ⟨h0, hc, by norm_num [abs_of_nonneg], hf.1, hf.2.1, ?_⟩
  rw [hf.1, h0]
  intro he
  have hz := congrArg cVector3d.z he
  norm_num at hz

/-- C5 evaluated: on the first pass (index 0) with raw velocity
`(0.0005, 0, 0)` the dead-zone test holds and `cx` ends the pass at 0, but the
running average of that pass is `0.0005`, computed from the clamped value
before the zeroing, and not `(avg_old * 0 + 0) / (0 + 1) = 0`.  In every pass
the average is updated with the clamped value, dead zone or not. -/
theorem dead_zone_after_average (pos : cVector3d) (g : HapticState) :
    abs (clampedVelocity (constDevice pos ⟨0.0005, 0, 0⟩ 0)).x
        + abs (clampedVelocity (constDevice pos ⟨0.0005, 0, 0⟩ 0)).y
        + abs (clampedVelocity (constDevice pos ⟨0.0005, 0, 0⟩ 0)).z < 0.001
    ∧ (afterIterations (constDevice pos ⟨0.0005, 0, 0⟩) g 1).cx = 0
    ∧ (afterIterations (constDevice pos ⟨0.0005, 0, 0⟩) g 1).operand = 0
    ∧ (afterIterations (constDevice pos ⟨0.0005, 0, 0⟩) g 1).avgx = 0.0005
    ∧ (afterIterations (constDevice pos ⟨0.0005, 0, 0⟩) g 1).avgx
        ≠ runningAverage (afterIterations (constDevice pos ⟨0.0005, 0, 0⟩) g 0).avgx 0 0
    ∧ (∀ (dev : Nat → Sample) (b : Bool) (s : HapticState), InLoop s →
        (step dev b s).avgx
          = runningAverage s.avgx (clampedVelocity (dev s.polls)).x (s.cnt : ℚ)) := by
  have hc : clampedVelocity (constDevice pos ⟨0.0005, 0, 0⟩ 0) = ⟨0.0005, 0, 0⟩ := by
    have e0 : axisUpperLim (0 : ℚ) 0.05 = 0 :=
      axisUpperLim_of_abs_le _ _ (by norm_num)
    have e2 : axisUpperLim (0.0005 : ℚ) 0.05 = 0.0005 :=
      axisUpperLim_of_abs_le _ _ (by norm_num [abs_le])
    simp only [clampedVelocity, constDevice, limx, limy, limz, e0, e2]
  have hlow : abs (0.0005 : ℚ) + abs (0 : ℚ) + abs (0 : ℚ) < 0.001 := by
    norm_num [abs_of_nonneg]
  have hin := afterIterations_inLoop (constDevice pos ⟨0.0005, 0, 0⟩) g 0
  have ha := step_avg (constDevice pos ⟨0.0005, 0, 0⟩) false _ hin
  rw [← afterIterations_succ, afterIterations_polls, hc, afterIterations_cnt] at ha
  have hop := step_operand (constDevice pos ⟨0.0005, 0, 0⟩) false _ hin
  rw [← afterIterations_succ, afterIterations_cnt] at hop
  have havg : (afterIterations (constDevice pos ⟨0.0005, 0, 0⟩) g 1).avgx = 0.0005 := by
    rw [ha.1]
    simp [runningAverage]
  refine ⟨by rw [hc]; exact hlow, ?_, ?_, havg, ?_, ?_⟩
  · rw [ha.2.2.2.2, if_pos hlow]
  · rw [hop]; simp
  · rw [havg]
    norm_num [runningAverage]
  · intro dev b s h
    exact (step_avg dev b s h).1

/-! ## Running average under constant input -/

theorem runningAverage_const (a x : ℚ) (n : Int) (hn : 0 ≤ n) (h : n = 0 ∨ a = x) :
    runningAverage a x (n : ℚ) = x := by
  unfold runningAverage
  rcases h with h | h
  · subst h; simp
  · subst h
    have hq : (0 : ℚ) ≤ (n : ℚ) := by exact_mod_cast hn
    have hne : (n : ℚ) + 1 ≠ 0 := by linarith
    field_simp
    ring

theorem run_avgx_const (dev : Nat → Sample) (x : ℚ)
    (hx : ∀ k : Nat, (clampedVelocity (dev k)).x = x) (stops : List Bool) :
    ∀ s : HapticState, InLoop s → (s.cnt = 0 ∨ s.avgx = x) → stops ≠ [] →
      (run dev stops s).avgx = x ∧ (run dev stops s).avgLinearVelocity.x = x := by
  induction stops with
  | nil => intro s _ _ hne; exact absurd rfl hne
  | cons b bs ih =>
    intro s h hs _
    have ha := step_avg dev b s h
    have h1 : (step dev b s).avgx = x := by
      rw [ha.1, hx]
      exact runningAverage_const _ _ _ h.2.1 hs
    by_cases hb : bs = []
    · subst hb
      refine ⟨h1, ?_⟩
      show (step dev b s).avgLinearVelocity.x = x
      rw [ha.2.2.2.1]
      exact h1
    · exact ih _ (step_inLoop dev b s h).1 (Or.inr h1) hb

theorem run_avgy_const (dev : Nat → Sample) (x : ℚ)
    (hx : ∀ k : Nat, (clampedVelocity (dev k)).y = x) (stops : List Bool) :
    ∀ s : HapticState, InLoop s → (s.cnt = 0 ∨ s.avgy = x) → stops ≠ [] →
      (run dev stops s).avgy = x ∧ (run dev stops s).avgLinearVelocity.y = x := by
  induction stops with
  | nil => intro s _ _ hne; exact absurd rfl hne
  | cons b bs ih =>
    intro s h hs _
    have ha := step_avg dev b s h
    have h1 : (step dev b s).avgy = x := by
      rw [ha.2.1, hx]
      exact runningAverage_const _ _ _ h.2.1 hs
    by_cases hb : bs = []
    · subst hb
      refine ⟨h1, ?_⟩
      show (step dev b s).avgLinearVelocity.y = x
      rw [ha.2.2.2.1]
      exact h1
    · exact ih _ (step_inLoop dev b s h).1 (Or.inr h1) hb

theorem run_avgz_const (dev : Nat → Sample) (x : ℚ)
    (hx : ∀ k : Nat, (clampedVelocity (dev k)).z = x) (stops : List Bool) :
    ∀ s : HapticState, InLoop s → (s.cnt = 0 ∨ s.avgz = x) → stops ≠ [] →
      (run dev stops s).avgz = x ∧ (run dev stops s).avgLinearVelocity.z = x := by
  induction stops with
  | nil => intro s _ _ hne; exact absurd rfl hne
  | cons b bs ih =>
    intro s h hs _
    have ha := step_avg dev b s h
    have h1 : (step dev b s).avgz = x := by
      rw [ha.2.2.1, hx]
      exact runningAverage_const _ _ _ h.2.1 hs
    by_cases hb : bs = []
    · subst hb
      refine ⟨h1, ?_⟩
      show (step dev b s).avgLinearVelocity.z = x
      rw [ha.2.2.2.1]
      exact h1
    · exact ih _ (step_inLoop dev b s h).1 (Or.inr h1) hb

theorem entered_cnt (dev : Nat → Sample) (g : HapticState) :
    (step dev false (initState g)).cnt = 0 := by
  rw [step_init]

theorem cVector3d_eq (v : cVector3d) (a b c : ℚ) (hx : v.x = a) (hy : v.y = b)
    (hz : v.z = c) : v = ⟨a, b, c⟩ := by
  cases v
  simp only at hx hy hz
  rw [hx, hy, hz]

/-- Exact-arithmetic form of the constant-input property: when the recurrence
`(avg * n + x) / (n + 1)` is evaluated without rounding, for every `x` with
`|x| ≤ 0.05`, every initial content of the accumulators and every flag history,
a raw velocity `x` on an axis at every poll gives a running average of exactly
`x` on that axis after every pass.  The program's doubles do not have this
property, see `running_average_constant_counterexample`. -/
theorem running_average_constant (x : ℚ) (hx : abs x ≤ 0.05) (dev : Nat → Sample)
    (g : HapticState) (stops : List Bool) (hne : stops ≠ []) :
    ((∀ k : Nat, (dev k).linearVelocity.x = x) →
        (run dev (false :: stops) (initState g)).avgx = x
        ∧ (run dev (false :: stops) (initState g)).avgLinearVelocity.x = x)
    ∧ ((∀ k : Nat, (dev k).linearVelocity.y = x) →
        (run dev (false :: stops) (initState g)).avgy = x
        ∧ (run dev (false :: stops) (initState g)).avgLinearVelocity.y = x)
    ∧ ((∀ k : Nat, (dev k).linearVelocity.z = x) →
        (run dev (false :: stops) (initState g)).avgz = x
        ∧ (run dev (false :: stops) (initState g)).avgLinearVelocity.z = x)
    ∧ (∀ (pos : cVector3d) (n : Nat), n < 40 →
        (afterIterations (constDevice pos v002) g (n + 1)).avgLinearVelocity = v002) := by
  have hin := inLoop_entered dev g
  have h0 : (step dev false (initState g)).cnt = 0 := entered_cnt dev g
  refine ⟨?_, ?_, ?_, ?_⟩
  · intro hv
    refine run_avgx_const dev x ?_ stops _ hin (Or.inl h0) hne
    intro k
    show axisUpperLim (dev k).linearVelocity.x limx = x
    rw [hv k]
    exact axisUpperLim_of_abs_le _ _ hx
  · intro hv
    refine run_avgy_const dev x ?_ stops _ hin (Or.inl h0) hne
    intro k
    show axisUpperLim (dev k).linearVelocity.y limy = x
    rw [hv k]
    exact axisUpperLim_of_abs_le _ _ hx
  · intro hv
    refine run_avgz_const dev x ?_ stops _ hin (Or.inl h0) hne
    intro k
    show axisUpperLim (dev k).linearVelocity.z limz = x
    rw [hv k]
    exact axisUpperLim_of_abs_le _ _ hx
  · intro pos n _
    have hc : ∀ k : Nat, clampedVelocity (constDevice pos v002 k) = v002 :=
      fun k => clampedVelocity_v002 _ rfl
    have hin2 := inLoop_entered (constDevice pos v002) g
    have h02 := entered_cnt (constDevice pos v002) g
    have hne2 : List.replicate (n + 1) false ≠ [] := by simp
    have hx2 := run_avgx_const (constDevice pos v002) 0.02 (fun k => by rw [hc k]; rfl)
      (List.replicate (n + 1) false) _ hin2 (Or.inl h02) hne2
    have hy2 := run_avgy_const (constDevice pos v002) 0.02 (fun k => by rw [hc k]; rfl)
      (List.replicate (n + 1) false) _ hin2 (Or.inl h02) hne2
    have hz2 := run_avgz_const (constDevice pos v002) 0.02 (fun k => by rw [hc k]; rfl)
      (List.replicate (n + 1) false) _ hin2 (Or.inl h02) hne2
    unfold afterIterations
    rw [List.replicate_succ]
    exact cVector3d_eq _ _ _ _ hx2.2 hy2.2 hz2.2

/-- Instance of the exact-arithmetic form: `x = 0.02` on the x axis, three
passes, the flag cleared during the second. -/
theorem running_average_constant_witness :
    abs (0.02 : ℚ) ≤ 0.05 ∧ [false, true, false] ≠ ([] : List Bool)
    ∧ (∀ k : Nat, (constDevice ⟨0, 0, 0⟩ v002 k).linearVelocity.x = 0.02)
    ∧ (run (constDevice ⟨0, 0, 0⟩ v002) (false :: [false, true, false])
        (initState zeroState)).avgx = 0.02 := by
  have h1 : abs (0.02 : ℚ) ≤ 0.05 := by norm_num [abs_le]
  have h2 : [false, true, false] ≠ ([] : List Bool) := by simp
  have h3 : ∀ k : Nat, (constDevice ⟨0, 0, 0⟩ v002 k).linearVelocity.x = 0.02 :=
    fun _ => rfl
  exact ⟨h1, h2, h3,
    ((running_average_constant 0.02 h1 (constDevice ⟨0, 0, 0⟩ v002) zeroState
      [false, true, false] h2).1 h3).1⟩

/-! ## Where the running flag is read -/

/-- C7 as stated fails: with the flag cleared at the end of the first pass,
one pass has ended (`signals = 1`), the flag is false during the next step, and
yet it is not the case that no further sample is processed and the loop has
exited: a second pass runs. -/
theorem stop_between_iterations_counterexample :
    (run (constDevice ⟨0, 0, 0⟩ v002) [false, false] (initState zeroState)).signals = 1
    ∧ (run (constDevice ⟨0, 0, 0⟩ v002) [false, false, true]
        (initState zeroState)).simulationRunning = false
    ∧ ¬ ((run (constDevice ⟨0, 0, 0⟩ v002) [false, false, true]
            (initState zeroState)).signals
          = (run (constDevice ⟨0, 0, 0⟩ v002) [false, false] (initState zeroState)).signals
        ∧ (run (constDevice ⟨0, 0, 0⟩ v002) [false, false, true]
            (initState zeroState)).loc = Loc.finished) := by
  have h1 := (loop_never_observes_stop (constDevice ⟨0, 0, 0⟩ v002) zeroState).1 [false]
  have h2 := (loop_never_observes_stop (constDevice ⟨0, 0, 0⟩ v002) zeroState).1 [false, true]
  have h3 : (run (constDevice ⟨0, 0, 0⟩ v002) [false, false, true]
      (initState zeroState)).simulationRunning = false := by
    have hin := run_inLoop (constDevice ⟨0, 0, 0⟩ v002) [false] _
      (inLoop_entered (constDevice ⟨0, 0, 0⟩ v002) zeroState)
    show (step (constDevice ⟨0, 0, 0⟩ v002) true
      (run (constDevice ⟨0, 0, 0⟩ v002) [false]
        (step (constDevice ⟨0, 0, 0⟩ v002) false (initState zeroState)))).simulationRunning
        = false
    rw [step_forTest _ true _ hin.1 hin.2.2.1]
    rfl
  refine ⟨h1.2.2.1, h3, ?_⟩
  rintro ⟨_, hloc⟩
  rw [h2.1] at hloc
  exact absurd hloc (by decide)

/-- C7 amended: the running flag is read at the test of the `while` only.  For
every state and every value of the flag, a step processes a device sample
exactly when control is at the test of the `for` with `cnt ≤ 30`, whatever the
flag; the loop reaches its exit exactly from the test of the `while` with the
flag false, without processing a sample, and that is where
`simulationFinished` becomes true. -/
theorem flag_read_at_while_only (dev : Nat → Sample) (b : Bool) (s : HapticState) :
    ((step dev b s).polls
        = if s.loc = Loc.forTest ∧ s.cnt ≤ 30 then s.polls + 1 else s.polls)
    ∧ ((step dev b s).signals
        = if s.loc = Loc.forTest ∧ s.cnt ≤ 30 then s.signals + 1 else s.signals)
    ∧ ((step dev b s).loc = Loc.finished
        ↔ (s.loc = Loc.finished
            ∨ (s.loc = Loc.whileTest ∧ (b = true ∨ s.simulationRunning = false))))
    ∧ ((step dev b s).simulationFinished
        = if s.loc = Loc.whileTest ∧ (b = true ∨ s.simulationRunning = false)
          then true else s.simulationFinished) := by
  cases hloc : s.loc with
  | whileTest =>
    cases b <;> cases hr : s.simulationRunning <;> simp [step, hloc, hr]
  | forTest =>
    by_cases hc : s.cnt ≤ 30
    · rw [step_forTest dev b s hloc hc]
      simp [hc, loopBody, hloc]
    · cases b <;> simp [step, hloc, hc]
  | finished =>
    cases b <;> simp [step, hloc]

/-! ## Boundedness -/

theorem axisUpperLim_bounds (v L : ℚ) (hL : 0 ≤ L) :
    -L ≤ axisUpperLim v L ∧ axisUpperLim v L ≤ L := by
  unfold axisUpperLim
  by_cases h1 : v > L
  · have h2 : ¬ L < -L := by linarith
    simp only [h1, h2, if_true, if_false]
    constructor <;> linarith
  · by_cases h3 : v < -L
    · simp only [h1, h3, if_true, if_false]
      constructor <;> linarith
    · simp only [h1, h3, if_false]
      constructor <;> linarith

theorem clampedVelocity_within (smp : Sample) : withinLimit (clampedVelocity smp) := by
  have hL : (0 : ℚ) ≤ 0.05 := by norm_num
  exact ⟨axisUpperLim_bounds _ _ hL, axisUpperLim_bounds _ _ hL, axisUpperLim_bounds _ _ hL⟩

theorem xAxisCheck_within (p c : cVector3d) (hp : withinLimit p) (hc : withinLimit c) :
    withinLimit (xAxisCheck p c).1 ∧ withinLimit (xAxisCheck p c).2 := by
  unfold xAxisCheck
  split_ifs
  · exact ⟨hp, hp⟩
  · exact ⟨hc, hc⟩

theorem runningAverage_bounds (a c : ℚ) (n : Int) (hn : 0 ≤ n)
    (hc : -0.05 ≤ c ∧ c ≤ 0.05) (ha : n = 0 ∨ (-0.05 ≤ a ∧ a ≤ 0.05)) :
    -0.05 ≤ runningAverage a c (n : ℚ) ∧ runningAverage a c (n : ℚ) ≤ 0.05 := by
  unfold runningAverage
  rcases ha with h | h
  · subst h
    simpa using hc
  · have hq : (0 : ℚ) ≤ (n : ℚ) := by exact_mod_cast hn
    have hd : (0 : ℚ) < (n : ℚ) + 1 := by linarith
    have hlo : (-0.05 : ℚ) * (n : ℚ) ≤ a * (n : ℚ) :=
      mul_le_mul_of_nonneg_right h.1 hq
    have hhi : a * (n : ℚ) ≤ 0.05 * (n : ℚ) :=
      mul_le_mul_of_nonneg_right h.2 hq
    constructor
    · rw [le_div_iff₀ hd]
      linarith [hc.1]
    · rw [div_le_iff₀ hd]
      linarith [hc.2]

theorem abs_sub_self_le (a : ℚ) : abs (a - a) ≤ 0.05 := by
  rw [sub_self, abs_zero]
  norm_num

theorem abs_add_sub_le (a v : ℚ) (h : -0.05 ≤ v ∧ v ≤ 0.05) : abs (a + v - a) ≤ 0.05 := by
  rw [add_sub_cancel_left]
  exact abs_le.mpr h

theorem loopBody_nearPosition (smp : Sample) (s : HapticState)
    (hl : withinLimit (loopBody smp s).linearVelocity) :
    nearPosition (loopBody smp s).predictIndicatorPos smp.position := by
  rw [predicted_position_aux]
  unfold nearPosition
  split_ifs
  · exact ⟨abs_sub_self_le _, abs_sub_self_le _, abs_sub_self_le _⟩
  · exact ⟨abs_add_sub_le _ _ hl.1, abs_add_sub_le _ _ hl.2.1, abs_add_sub_le _ _ hl.2.2⟩

/-- One pass from a state whose stored velocity is within the limit, and whose
accumulators are within the limit unless the index is 0, ends within all the
bounds. -/
theorem step_bounded (dev : Nat → Sample) (b : Bool) (s : HapticState) (h : InLoop s)
    (hp : withinLimit s.prevLinearVelocity)
    (ha : s.cnt = 0 ∨ withinLimit ⟨s.avgx, s.avgy, s.avgz⟩) :
    BoundedAfterPass (step dev b s)
    ∧ (step dev b s).hapticDevicePosition = (dev s.polls).position := by
  have hc := clampedVelocity_within (dev s.polls)
  have hx := xAxisCheck_within _ _ hp hc
  have hf := step_fields dev b s h
  have hv := step_avg dev b s h
  have hlv : withinLimit (loopBody (dev s.polls) s).linearVelocity := by
    rw [loopBody_linearVelocity]; exact hx.1
  have hnear := loopBody_nearPosition (dev s.polls) s hlv
  have hpos : (step dev b s).hapticDevicePosition = (dev s.polls).position := by
    rw [step_forTest dev b s h.1 h.2.2.1]
    rfl
  have hax := runningAverage_bounds s.avgx _ s.cnt h.2.1 hc.1 (ha.imp id (fun w => w.1))
  have hay := runningAverage_bounds s.avgy _ s.cnt h.2.1 hc.2.1 (ha.imp id (fun w => w.2.1))
  have haz := runningAverage_bounds s.avgz _ s.cnt h.2.1 hc.2.2 (ha.imp id (fun w => w.2.2))
  rw [← hv.1] at hax
  rw [← hv.2.1] at hay
  rw [← hv.2.2.1] at haz
  have havg : withinLimit ⟨(step dev b s).avgx, (step dev b s).avgy, (step dev b s).avgz⟩ :=
    ⟨hax, hay, haz⟩
  refine ⟨⟨?_, ?_, ?_, havg, ?_⟩, hpos⟩
  · rw [hf.2.1]; exact hx.2
  · rw [hf.1]; exact hx.1
  · rw [hv.2.2.2.1]; exact havg
  · rw [hf.2.2.1, hpos]; exact hnear

theorem run_bounded (dev : Nat → Sample) (stops : List Bool) :
    ∀ s : HapticState, InLoop s → withinLimit s.prevLinearVelocity →
      (s.cnt = 0 ∨ withinLimit ⟨s.avgx, s.avgy, s.avgz⟩) → stops ≠ [] →
      BoundedAfterPass (run dev stops s)
      ∧ (run dev stops s).hapticDevicePosition
          = (dev (s.polls + stops.length - 1)).position := by
  induction stops with
  | nil => intro s _ _ _ hne; exact absurd rfl hne
  | cons b bs ih =>
    intro s h hp ha _
    have h1 := step_bounded dev b s h hp ha
    by_cases hb : bs = []
    · subst hb
      refine ⟨h1.1, ?_⟩
      show (step dev b s).hapticDevicePosition = _
      rw [h1.2]
      simp
    · have hin := step_inLoop dev b s h
      have h2 := ih _ hin.1 h1.1.1 (Or.inr h1.1.2.2.2.1) hb
      refine ⟨h2.1, ?_⟩
      show (run dev bs (step dev b s)).hapticDevicePosition = _
      rw [h2.2, (step_fields dev b s h).2.2.2]
      have hlen : 0 < bs.length := List.length_pos.mpr hb
      congr 2
      simp only [List.length_cons]
      omega

theorem zero_withinLimit : withinLimit ⟨0, 0, 0⟩ := by
  unfold withinLimit
  norm_num

/-- Exact-arithmetic form of the boundedness invariant: when no result is
rounded, after every pass each component of the stored previous velocity, of
the filtered velocity and of the running average lies in `[-0.05, 0.05]`, and
the predicted position differs from the position read in that pass by at most
0.05 on each axis.  The program's doubles exceed these bounds by rounding
errors, see `bounded_counterexample` and `bounded_up_to_rounding`. -/
theorem bounded_after_every_pass (dev : Nat → Sample) (g : HapticState)
    (stops : List Bool) (hne : stops ≠ []) :
    withinLimit (run dev (false :: stops) (initState g)).prevLinearVelocity
    ∧ withinLimit (run dev (false :: stops) (initState g)).linearVelocity
    ∧ withinLimit (run dev (false :: stops) (initState g)).avgLinearVelocity
    ∧ withinLimit ⟨(run dev (false :: stops) (initState g)).avgx,
        (run dev (false :: stops) (initState g)).avgy,
        (run dev (false :: stops) (initState g)).avgz⟩
    ∧ (run dev (false :: stops) (initState g)).hapticDevicePosition
        = (dev (stops.length - 1)).position
    ∧ nearPosition (run dev (false :: stops) (initState g)).predictIndicatorPos
        (dev (stops.length - 1)).position := by
  have hin := inLoop_entered dev g
  have hp : withinLimit (step dev false (initState g)).prevLinearVelocity := by
    rw [step_init]
    show withinLimit (initState g).prevLinearVelocity
    rw [initState_prev]
    exact zero_withinLimit
  have h := run_bounded dev stops _ hin hp (Or.inl (entered_cnt dev g)) hne
  have hpolls : (step dev false (initState g)).polls = 0 := by
    rw [step_init]; rfl
  rw [hpolls, Nat.zero_add] at h
  have hpos : (run dev (false :: stops) (initState g)).hapticDevicePosition
      = (dev (stops.length - 1)).position := h.2
  refine ⟨h.1.1, h.1.2.1, h.1.2.2.1, h.1.2.2.2.1, hpos, ?_⟩
  rw [← hpos]
  exact h.1.2.2.2.2

/-- Instance of the exact-arithmetic form: two passes, the flag cleared before
the second, on a device at `(1, 2, 3)` reporting `(0.02, 0.02, 0.02)`. -/
theorem bounded_after_every_pass_witness :
    [false, true] ≠ ([] : List Bool)
    ∧ withinLimit (run (constDevice ⟨1, 2, 3⟩ v002) (false :: [false, true])
        (initState zeroState)).prevLinearVelocity
    ∧ withinLimit (run (constDevice ⟨1, 2, 3⟩ v002) (false :: [false, true])
        (initState zeroState)).avgLinearVelocity
    ∧ nearPosition (run (constDevice ⟨1, 2, 3⟩ v002) (false :: [false, true])
        (initState zeroState)).predictIndicatorPos ⟨1, 2, 3⟩ := by
  have hne : [false, true] ≠ ([] : List Bool) := by simp
  have h := bounded_after_every_pass (constDevice ⟨1, 2, 3⟩ v002) zeroState [false, true] hne
  exact ⟨hne, h.1, h.2.2.1, h.2.2.2.2.2⟩

/-! ## Binary64 rounding -/

theorem roundEven_err (y : ℚ) : abs ((roundEven y : ℚ) - y) ≤ 1 / 2 := by
  have h1 := Int.floor_le y
  have h2 := Int.lt_floor_add_one y
  unfold roundEven
  simp only []
  rw [abs_le]
  split_ifs <;> push_cast <;> constructor <;> linarith

theorem log2Fuel_spec (fuel : Nat) :
    ∀ n : Nat, n ≤ fuel → n ≠ 0 →
      2 ^ log2Fuel fuel n ≤ n ∧ n < 2 ^ (log2Fuel fuel n + 1) := by
  induction fuel with
  | zero =>
    intro n hle hn
    exact absurd (Nat.le_zero.mp hle) hn
  | succ f ih =>
    intro n hle hn
    unfold log2Fuel
    split_ifs with h2
    · have h1 : n = 1 := by omega
      subst h1
      exact ⟨by norm_num, by norm_num⟩
    · have hhalf : n / 2 ≤ f := by omega
      have hne : n / 2 ≠ 0 := by omega
      obtain ⟨hlo, hhi⟩ := ih (n / 2) hhalf hne
      have e1 : 2 ^ (log2Fuel f (n / 2) + 1) = 2 * 2 ^ log2Fuel f (n / 2) := by
        rw [pow_succ]; ring
      have e2 : 2 ^ (log2Fuel f (n / 2) + 1 + 1) = 2 * 2 ^ (log2Fuel f (n / 2) + 1) := by
        rw [pow_succ]; ring
      constructor
      · rw [e1]; omega
      · rw [e2]; omega

theorem natLog2_self_le (n : Nat) (hn : n ≠ 0) : 2 ^ natLog2 n ≤ n :=
  (log2Fuel_spec n n (le_refl _) hn).1

theorem lt_natLog2_self (n : Nat) (hn : n ≠ 0) : n < 2 ^ (natLog2 n + 1) :=
  (log2Fuel_spec n n (le_refl _) hn).2

/-- The exponent found by `floorLog2` is the binary exponent. -/
theorem floorLog2_spec (q : ℚ) (hq : 0 < q) :
    (2 : ℚ) ^ floorLog2 q ≤ q ∧ q < (2 : ℚ) ^ (floorLog2 q + 1) := by
  have hnum : 0 < q.num := Rat.num_pos.mpr hq
  have hnat : ((q.num.natAbs : ℕ) : ℚ) = (q.num : ℚ) := by
    have h : ((q.num.natAbs : ℕ) : ℤ) = q.num := Int.natAbs_of_nonneg hnum.le
    calc ((q.num.natAbs : ℕ) : ℚ) = (((q.num.natAbs : ℕ) : ℤ) : ℚ) := (Int.cast_natCast _).symm
      _ = (q.num : ℚ) := by rw [h]
  have hn0 : q.num.natAbs ≠ 0 := Int.natAbs_ne_zero.mpr (ne_of_gt hnum)
  have hden : (0 : ℚ) < (q.den : ℚ) := by exact_mod_cast q.den_pos
  have hqd : q = (q.num.natAbs : ℚ) / (q.den : ℚ) := by
    rw [hnat]
    exact (Rat.num_div_den q).symm
  have ha1 : ((2 : ℚ) ^ (natLog2 q.num.natAbs)) ≤ (q.num.natAbs : ℚ) := by
    exact_mod_cast natLog2_self_le _ hn0
  have ha2 : (q.num.natAbs : ℚ) < (2 : ℚ) ^ (natLog2 q.num.natAbs + 1) := by
    exact_mod_cast lt_natLog2_self _ hn0
  have hb1 : ((2 : ℚ) ^ (natLog2 q.den)) ≤ (q.den : ℚ) := by
    exact_mod_cast natLog2_self_le _ q.den_nz
  have hb2 : (q.den : ℚ) < (2 : ℚ) ^ (natLog2 q.den + 1) := by
    exact_mod_cast lt_natLog2_self _ q.den_nz
  have hPa : (0 : ℚ) < (2 : ℚ) ^ (natLog2 q.num.natAbs) := by positivity
  have hPb : (0 : ℚ) < (2 : ℚ) ^ (natLog2 q.den) := by positivity
  have hz0 : (2 : ℚ) ^ ((natLog2 q.num.natAbs : ℤ) - (natLog2 q.den : ℤ))
      = (2 : ℚ) ^ (natLog2 q.num.natAbs) / (2 : ℚ) ^ (natLog2 q.den) := by
    rw [zpow_sub₀ (two_ne_zero), zpow_natCast, zpow_natCast]
  unfold floorLog2
  simp only []
  split_ifs with hc
  · refine ⟨hc, ?_⟩
    rw [zpow_add_one₀ (two_ne_zero), hz0, div_mul_eq_mul_div, lt_div_iff₀ hPb]
    have h1 : q * (2 : ℚ) ^ (natLog2 q.den) ≤ q * (q.den : ℚ) :=
      mul_le_mul_of_nonneg_left hb1 hq.le
    have h2 : q * (q.den : ℚ) = (q.num.natAbs : ℚ) := by
      rw [hnat]
      exact Rat.mul_den_eq_num q
    have h3 : (2 : ℚ) ^ (natLog2 q.num.natAbs + 1)
        = (2 : ℚ) ^ (natLog2 q.num.natAbs) * 2 := pow_succ _ _
    linarith
  · refine ⟨?_, ?_⟩
    · have hz1 : (2 : ℚ) ^ ((natLog2 q.num.natAbs : ℤ) - (natLog2 q.den : ℤ) - 1)
          = (2 : ℚ) ^ (natLog2 q.num.natAbs) / (2 : ℚ) ^ (natLog2 q.den + 1) := by
        rw [zpow_sub_one₀ (two_ne_zero), hz0, pow_succ]
        field_simp
      rw [hz1, div_le_iff₀ (by positivity)]
      have h2 : q * (q.den : ℚ) = (q.num.natAbs : ℚ) := by
        rw [hnat]
        exact Rat.mul_den_eq_num q
      have h1 : q * (q.den : ℚ) ≤ q * (2 : ℚ) ^ (natLog2 q.den + 1) :=
        mul_le_mul_of_nonneg_left hb2.le hq.le
      linarith
    · rw [sub_add_cancel]
      exact lt_of_not_le hc

theorem two_zpow_ulpExp_le (q : ℚ) (hq : q ≠ 0) :
    (2 : ℚ) ^ ulpExp q ≤ abs q / 2 ^ 52 + 1 / 2 ^ 1074 := by
  have hpos : (0 : ℚ) < abs q := abs_pos.mpr hq
  have hlog : (2 : ℚ) ^ floorLog2 (abs q) ≤ abs q := (floorLog2_spec (abs q) hpos).1
  unfold ulpExp
  rcases max_cases (floorLog2 (abs q) - 52) (-1074) with ⟨h, _⟩ | ⟨h, _⟩
  · rw [h, zpow_sub₀ (two_ne_zero)]
    have h52 : (2 : ℚ) ^ (52 : ℤ) = 2 ^ 52 := by norm_cast
    rw [h52]
    have hd : (2 : ℚ) ^ floorLog2 (abs q) / 2 ^ 52 ≤ abs q / 2 ^ 52 :=
      div_le_div_of_nonneg_right hlog (by positivity)
    have : (0 : ℚ) ≤ 1 / 2 ^ 1074 := by positivity
    linarith
  · rw [h]
    have h74 : (2 : ℚ) ^ (-1074 : ℤ) = 1 / 2 ^ 1074 := by
      rw [zpow_neg, one_div]
      norm_cast
    rw [h74]
    have : (0 : ℚ) ≤ abs q / 2 ^ 52 := by positivity
    linarith

/-- Rounding error of `fl`: half a unit in the last place, that is at most
`|q| / 2^53`, or `1 / 2^1075` in the subnormal range. -/
theorem fl_err (q : ℚ) : abs (fl q - q) ≤ abs q / 2 ^ 53 + 1 / 2 ^ 1075 := by
  by_cases hq : q = 0
  · subst hq
    have : fl 0 = 0 := by simp [fl, roundEven]
    rw [this]
    simp
  · have hP : (0 : ℚ) < 2 ^ ulpExp q := by positivity
    have hle := two_zpow_ulpExp_le q hq
    have hr := roundEven_err (q / 2 ^ ulpExp q)
    have heq : fl q - q
        = ((roundEven (q / 2 ^ ulpExp q) : ℚ) - q / 2 ^ ulpExp q) * 2 ^ ulpExp q := by
      unfold fl
      field_simp
    rw [heq, abs_mul, abs_of_pos hP]
    have h1 : abs ((roundEven (q / 2 ^ ulpExp q) : ℚ) - q / 2 ^ ulpExp q) * 2 ^ ulpExp q
        ≤ 1 / 2 * 2 ^ ulpExp q := mul_le_mul_of_nonneg_right hr hP.le
    have h2 : (1 : ℚ) / 2 * (abs q / 2 ^ 52 + 1 / 2 ^ 1074)
        = abs q / 2 ^ 53 + 1 / 2 ^ 1075 := by ring
    have h3 : (1 : ℚ) / 2 * 2 ^ ulpExp q ≤ 1 / 2 * (abs q / 2 ^ 52 + 1 / 2 ^ 1074) :=
      mul_le_mul_of_nonneg_left hle (by norm_num)
    linarith

theorem fl_small_nat : ∀ m : Nat, m < 32 → fl (m : ℚ) = m := by
  decide!

theorem fl_zero : fl 0 = 0 := by
  simpa using fl_small_nat 0 (by norm_num)

theorem fl_index_succ (n : Int) (h0 : 0 ≤ n) (h30 : n ≤ 30) :
    fl ((n : ℚ) + 1) = (n : ℚ) + 1 := by
  obtain ⟨m, rfl⟩ := Int.eq_ofNat_of_zero_le h0
  have hm : m + 1 < 32 := by omega
  have h := fl_small_nat (m + 1) hm
  push_cast at h ⊢
  exact h

theorem abs_fl_le (q B : ℚ) (hq : abs q ≤ B) :
    abs (fl q) ≤ B + B / 2 ^ 53 + 1 / 2 ^ 1075 := by
  have h := fl_err q
  have h1 : abs (fl q) ≤ abs (fl q - q) + abs q := by
    have := abs_add (fl q - q) q
    simpa using this
  have h2 : abs q / 2 ^ 53 ≤ B / 2 ^ 53 := div_le_div_of_nonneg_right hq (by positivity)
  linarith

theorem flo_eq_some (q : ℚ) (hq : abs q ≤ 2 ^ 1000) : flo q = some (fl q) := by
  have h := abs_fl_le q (2 ^ 1000) hq
  have hlt : abs (fl q) < 2 ^ 1024 := by
    have : (2 : ℚ) ^ 1000 + 2 ^ 1000 / 2 ^ 53 + 1 / 2 ^ 1075 < 2 ^ 1024 := by norm_num
    linarith
  unfold flo
  rw [if_pos hlt]

theorem flo_eq_some_of_le (q B : ℚ) (hq : abs q ≤ B) (hB : B ≤ 2 ^ 1000) :
    flo q = some (fl q) :=
  flo_eq_some q (le_trans hq hB)

theorem avg_step_upper (R Q T2 T1 v c n hi D e1 e2 e3 : ℚ) (hn : 0 ≤ n)
    (a1 : T1 - v * n ≤ e1) (a2 : T2 - (T1 + c) ≤ e2) (a3 : (R - Q) * (n + 1) ≤ e3)
    (hq : Q * (n + 1) = T2) (hv : v ≤ hi + D) (hc : c ≤ hi) (hs : e1 + e2 + e3 ≤ D) :
    R * (n + 1) ≤ (hi + D) * (n + 1) := by
  have h := mul_le_mul_of_nonneg_right hv hn
  nlinarith

theorem avg_step_lower (R Q T2 T1 v c n lo D e1 e2 e3 : ℚ) (hn : 0 ≤ n)
    (a1 : -e1 ≤ T1 - v * n) (a2 : -e2 ≤ T2 - (T1 + c)) (a3 : -e3 ≤ (R - Q) * (n + 1))
    (hq : Q * (n + 1) = T2) (hv : lo - D ≤ v) (hc : lo ≤ c) (hs : e1 + e2 + e3 ≤ D) :
    (lo - D) * (n + 1) ≤ R * (n + 1) := by
  have h := mul_le_mul_of_nonneg_right hv hn
  nlinarith

theorem rounding_budget :
    (2 : ℚ) / 2 ^ 53 + 1 / 2 ^ 1075 + ((5 / 2) / 2 ^ 53 + 1 / 2 ^ 1075)
      + (3 / 2 ^ 53 + 31 / 2 ^ 1075) ≤ avgSlack := by
  unfold avgSlack
  norm_num

/-- One update of the accumulator in doubles keeps it within `avgSlack` of any
interval `[lo, hi]` inside `[-0.06, 0.06]` that contains the sample, when the
old accumulator was within `avgSlack` of that interval. -/
theorem runningAverageD_bound (v c lo hi : ℚ) (n : Int) (h0 : 0 ≤ n) (h30 : n ≤ 30)
    (hlo : -(3 / 50) ≤ lo) (hhi : hi ≤ 3 / 50) (hc : lo ≤ c ∧ c ≤ hi)
    (hv : lo - avgSlack ≤ v ∧ v ≤ hi + avgSlack) :
    ∃ r : ℚ, runningAverageD (some v) c (n : ℚ) = some r
      ∧ lo - avgSlack ≤ r ∧ r ≤ hi + avgSlack := by
  have hn0 : (0 : ℚ) ≤ (n : ℚ) := by exact_mod_cast h0
  have hn30 : (n : ℚ) ≤ 30 := by exact_mod_cast h30
  have hbig : (31 : ℚ) ≤ 2 ^ 1000 := by norm_num
  have hd : (0 : ℚ) < (n : ℚ) + 1 := by linarith
  -- the product
  have hDle : avgSlack ≤ 1 / 150 := by
    unfold avgSlack
    norm_num
  have hvabs : abs v ≤ 1 / 15 := by
    rw [abs_le]
    constructor <;> linarith [hv.1, hv.2]
  have hq1 : abs (v * (n : ℚ)) ≤ 2 := by
    rw [abs_mul, abs_of_nonneg hn0]
    nlinarith [abs_nonneg v]
  have he1 := fl_err (v * (n : ℚ))
  have he1' : abs (fl (v * (n : ℚ)) - v * (n : ℚ)) ≤ 2 / 2 ^ 53 + 1 / 2 ^ 1075 := by
    have : abs (v * (n : ℚ)) / 2 ^ 53 ≤ 2 / 2 ^ 53 :=
      div_le_div_of_nonneg_right hq1 (by positivity)
    linarith
  have ht1 : flo (v * (n : ℚ)) = some (fl (v * (n : ℚ))) :=
    flo_eq_some_of_le _ 2 hq1 (by linarith)
  -- the sum
  have hcabs : abs c ≤ 3 / 50 := by
    rw [abs_le]; constructor <;> linarith [hc.1, hc.2]
  have hq2 : abs (fl (v * (n : ℚ)) + c) ≤ 5 / 2 := by
    have ha := abs_add (fl (v * (n : ℚ))) c
    have hb := abs_fl_le (v * (n : ℚ)) 2 hq1
    have : (2 : ℚ) + 2 / 2 ^ 53 + 1 / 2 ^ 1075 + 3 / 50 ≤ 5 / 2 := by norm_num
    linarith
  have he2 := fl_err (fl (v * (n : ℚ)) + c)
  have he2' : abs (fl (fl (v * (n : ℚ)) + c) - (fl (v * (n : ℚ)) + c))
      ≤ (5 / 2) / 2 ^ 53 + 1 / 2 ^ 1075 := by
    have : abs (fl (v * (n : ℚ)) + c) / 2 ^ 53 ≤ (5 / 2) / 2 ^ 53 :=
      div_le_div_of_nonneg_right hq2 (by positivity)
    linarith
  have ht2 : flo (fl (v * (n : ℚ)) + c) = some (fl (fl (v * (n : ℚ)) + c)) :=
    flo_eq_some_of_le _ (5 / 2) hq2 (by linarith)
  have ht2abs : abs (fl (fl (v * (n : ℚ)) + c)) ≤ 3 := by
    have hb := abs_fl_le (fl (v * (n : ℚ)) + c) (5 / 2) hq2
    have : (5 / 2 : ℚ) + (5 / 2) / 2 ^ 53 + 1 / 2 ^ 1075 ≤ 3 := by norm_num
    linarith
  -- the divisor
  have hfd : fl ((n : ℚ) + 1) = (n : ℚ) + 1 := fl_index_succ n h0 h30
  have htd : flo ((n : ℚ) + 1) = some ((n : ℚ) + 1) := by
    have hdabs : abs ((n : ℚ) + 1) ≤ 31 := by
      rw [abs_of_pos hd]; linarith
    rw [flo_eq_some_of_le _ 31 hdabs (by linarith), hfd]
  have hdne : ¬ ((n : ℚ) + 1 = 0) := ne_of_gt hd
  -- the quotient
  have hq3d : fl (fl (v * (n : ℚ)) + c) / ((n : ℚ) + 1) * ((n : ℚ) + 1)
      = fl (fl (v * (n : ℚ)) + c) := div_mul_cancel₀ _ (ne_of_gt hd)
  have hq3abs : abs (fl (fl (v * (n : ℚ)) + c) / ((n : ℚ) + 1)) * ((n : ℚ) + 1)
      = abs (fl (fl (v * (n : ℚ)) + c)) := by
    rw [abs_div, abs_of_pos hd]
    exact div_mul_cancel₀ _ (ne_of_gt hd)
  have hq3 : abs (fl (fl (v * (n : ℚ)) + c) / ((n : ℚ) + 1)) ≤ 3 := by
    have h1 : abs (fl (fl (v * (n : ℚ)) + c) / ((n : ℚ) + 1))
        ≤ abs (fl (fl (v * (n : ℚ)) + c) / ((n : ℚ) + 1)) * ((n : ℚ) + 1) := by
      have := abs_nonneg (fl (fl (v * (n : ℚ)) + c) / ((n : ℚ) + 1))
      nlinarith
    linarith
  have ht3 : flo (fl (fl (v * (n : ℚ)) + c) / ((n : ℚ) + 1))
      = some (fl (fl (fl (v * (n : ℚ)) + c) / ((n : ℚ) + 1))) :=
    flo_eq_some_of_le _ 3 hq3 (by linarith)
  have he3 := fl_err (fl (fl (v * (n : ℚ)) + c) / ((n : ℚ) + 1))
  have he3' : abs (fl (fl (fl (v * (n : ℚ)) + c) / ((n : ℚ) + 1))
        - fl (fl (v * (n : ℚ)) + c) / ((n : ℚ) + 1)) * ((n : ℚ) + 1)
      ≤ 3 / 2 ^ 53 + 31 / 2 ^ 1075 := by
    have hm := mul_le_mul_of_nonneg_right he3 hd.le
    have hexp : (abs (fl (fl (v * (n : ℚ)) + c) / ((n : ℚ) + 1)) / 2 ^ 53 + 1 / 2 ^ 1075)
          * ((n : ℚ) + 1)
        = abs (fl (fl (v * (n : ℚ)) + c)) / 2 ^ 53 + ((n : ℚ) + 1) / 2 ^ 1075 := by
      rw [← hq3abs]; ring
    have h53 : abs (fl (fl (v * (n : ℚ)) + c)) / 2 ^ 53 ≤ 3 / 2 ^ 53 :=
      div_le_div_of_nonneg_right ht2abs (by positivity)
    have h75 : ((n : ℚ) + 1) / 2 ^ 1075 ≤ 31 / 2 ^ 1075 :=
      div_le_div_of_nonneg_right (by linarith) (by positivity)
    linarith
  refine ⟨fl (fl (fl (v * (n : ℚ)) + c) / ((n : ℚ) + 1)), ?_, ?_, ?_⟩
  · simp only [runningAverageD, Option.some_bind, ht1, ht2, htd, if_neg hdne, ht3]
  · have a1 := (abs_le.mp he1').1
    have a2 := (abs_le.mp he2').1
    have a3 := neg_abs_le ((fl (fl (fl (v * (n : ℚ)) + c) / ((n : ℚ) + 1))
        - fl (fl (v * (n : ℚ)) + c) / ((n : ℚ) + 1)))
    have a3' : -(3 / 2 ^ 53 + 31 / 2 ^ 1075)
        ≤ (fl (fl (fl (v * (n : ℚ)) + c) / ((n : ℚ) + 1))
            - fl (fl (v * (n : ℚ)) + c) / ((n : ℚ) + 1)) * ((n : ℚ) + 1) := by
      have h := mul_le_mul_of_nonneg_right a3 hd.le
      rw [neg_mul] at h
      linarith
    exact le_of_mul_le_mul_right
      (avg_step_lower _ _ _ _ v c (n : ℚ) lo avgSlack _ _ _ hn0 a1 a2 a3' hq3d hv.1 hc.1
        rounding_budget) hd
  · have a1 := (abs_le.mp he1').2
    have a2 := (abs_le.mp he2').2
    have a3 := le_abs_self ((fl (fl (fl (v * (n : ℚ)) + c) / ((n : ℚ) + 1))
        - fl (fl (v * (n : ℚ)) + c) / ((n : ℚ) + 1)))
    have a3' : (fl (fl (fl (v * (n : ℚ)) + c) / ((n : ℚ) + 1))
            - fl (fl (v * (n : ℚ)) + c) / ((n : ℚ) + 1)) * ((n : ℚ) + 1)
        ≤ 3 / 2 ^ 53 + 31 / 2 ^ 1075 := by
      have h := mul_le_mul_of_nonneg_right a3 hd.le
      linarith
    exact le_of_mul_le_mul_right
      (avg_step_upper _ _ _ _ v c (n : ℚ) hi avgSlack _ _ _ hn0 a1 a2 a3' hq3d hv.2 hc.2
        rounding_budget) hd

/-! ## The loop in doubles -/

theorem iterationD_eq (smp : Sample) (t : DState) :
    iterationD smp t = { loopBodyD smp t with cnt := nextCnt t.cnt } := by
  unfold iterationD forIncrementD wrapCntD nextCnt
  have hc : (loopBodyD smp t).cnt = t.cnt := rfl
  rw [hc]
  split_ifs <;> simp [hc]

theorem stepD_forTest (dev : Nat → Sample) (b : Bool) (s : DState)
    (hl : s.loc = Loc.forTest) (hc : s.cnt ≤ 30) :
    stepD dev b s
      = { loopBodyD (dev s.polls) s with
          cnt := nextCnt s.cnt
          simulationRunning := if b then false else s.simulationRunning } := by
  cases b <;> simp [stepD, hl, hc, iterationD_eq, loopBodyD]

theorem stepD_inLoop (dev : Nat → Sample) (b : Bool) (s : DState) (h : InLoopD s) :
    InLoopD (stepD dev b s) ∧ (stepD dev b s).cnt = nextCnt s.cnt
    ∧ 1 ≤ (stepD dev b s).cnt ∧ (stepD dev b s).polls = s.polls + 1 := by
  obtain ⟨hl, h0, h30, hf⟩ := h
  rw [stepD_forTest dev b s hl h30]
  have hr := nextCnt_range s.cnt h0 h30
  refine ⟨⟨?_, ?_, ?_, ?_⟩, rfl, hr.1, rfl⟩
  · simpa [loopBodyD] using hl
  · show 0 ≤ nextCnt s.cnt
    omega
  · exact hr.2
  · simpa [loopBodyD] using hf

theorem stepD_init (dev : Nat → Sample) (g : DState) :
    stepD dev false (initStateD g) = { initStateD g with cnt := 0, loc := Loc.forTest } := by
  simp [stepD, initStateD]

theorem inLoopD_entered (dev : Nat → Sample) (g : DState) :
    InLoopD (stepD dev false (initStateD g)) := by
  rw [stepD_init]
  exact ⟨rfl, le_refl _, by norm_num, rfl⟩

theorem stepD_avg (dev : Nat → Sample) (b : Bool) (s : DState) (h : InLoopD s) :
    (stepD dev b s).avgx
        = runningAverageD s.avgx (axisUpperLim (dev s.polls).linearVelocity.x limxD)
            (s.cnt : ℚ)
    ∧ (stepD dev b s).avgy
        = runningAverageD s.avgy (axisUpperLim (dev s.polls).linearVelocity.y limyD)
            (s.cnt : ℚ)
    ∧ (stepD dev b s).avgz
        = runningAverageD s.avgz (axisUpperLim (dev s.polls).linearVelocity.z limzD)
            (s.cnt : ℚ)
    ∧ (stepD dev b s).avgLinearVelocity
        = ⟨(stepD dev b s).avgx, (stepD dev b s).avgy, (stepD dev b s).avgz⟩ := by
  rw [stepD_forTest dev b s h.1 h.2.2.1]
  exact ⟨rfl, rfl, rfl, rfl⟩

theorem jitterCheckD_of_eq (pa ca : ℚ) (lp : cVector3d × cVector3d) (h : lp.1 = lp.2) :
    jitterCheckD pa ca lp = lp := by
  unfold jitterCheckD
  split_ifs
  · exact Prod.ext h.symm rfl
  · exact Prod.ext rfl h

theorem jitterCheckD_fst_eq_snd (pa ca : ℚ) (lp : cVector3d × cVector3d) :
    (jitterCheckD pa ca lp).1 = (jitterCheckD pa ca lp).2 := by
  unfold jitterCheckD
  split_ifs <;> rfl

theorem jitterFilterD_cases (p : cVector3d) (cx cy cz : ℚ) :
    jitterFilterD p cx cy cz = (p, p)
    ∨ jitterFilterD p cx cy cz = (⟨cx, cy, cz⟩, ⟨cx, cy, cz⟩) := by
  have h : jitterFilterD p cx cy cz = jitterCheckD p.x cx (⟨cx, cy, cz⟩, p) := by
    unfold jitterFilterD
    simp only []
    rw [jitterCheckD_of_eq p.z cz, jitterCheckD_of_eq p.y cy]
    · exact jitterCheckD_fst_eq_snd _ _ _
    · rw [jitterCheckD_of_eq p.y cy _ (jitterCheckD_fst_eq_snd _ _ _)]
      exact jitterCheckD_fst_eq_snd _ _ _
  rw [h]
  unfold jitterCheckD
  split_ifs
  · exact Or.inl rfl
  · exact Or.inr rfl

theorem limxD_bounds : (0 : ℚ) ≤ limxD ∧ limxD ≤ 3 / 50 ∧ limxD = limyD ∧ limxD = limzD := by
  decide!

theorem clampedD_within (smp : Sample) :
    withinLimitD ⟨axisUpperLim smp.linearVelocity.x limxD,
      axisUpperLim smp.linearVelocity.y limyD,
      axisUpperLim smp.linearVelocity.z limzD⟩ := by
  have h := limxD_bounds
  have hy : (0 : ℚ) ≤ limyD := by rw [← h.2.2.1]; exact h.1
  have hz : (0 : ℚ) ≤ limzD := by rw [← h.2.2.2]; exact h.1
  exact ⟨axisUpperLim_bounds _ _ h.1, axisUpperLim_bounds _ _ hy, axisUpperLim_bounds _ _ hz⟩

theorem stepD_velocities (dev : Nat → Sample) (b : Bool) (s : DState) (h : InLoopD s)
    (hp : withinLimitD s.prevLinearVelocity) :
    withinLimitD (stepD dev b s).prevLinearVelocity
    ∧ withinLimitD (stepD dev b s).linearVelocity
    ∧ (stepD dev b s).hapticDevicePosition = (dev s.polls).position
    ∧ ((stepD dev b s).predictIndicatorPos = (dev s.polls).position.toO
        ∨ (stepD dev b s).predictIndicatorPos
            = cAddD (dev s.polls).position (stepD dev b s).linearVelocity.toO) := by
  have hc := clampedD_within (dev s.polls)
  rw [stepD_forTest dev b s h.1 h.2.2.1]
  have hj := jitterFilterD_cases s.prevLinearVelocity
    (axisUpperLim (dev s.polls).linearVelocity.x limxD)
    (axisUpperLim (dev s.polls).linearVelocity.y limyD)
    (axisUpperLim (dev s.polls).linearVelocity.z limzD)
  refine ⟨?_, ?_, rfl, ?_⟩
  · show withinLimitD (jitterFilterD _ _ _ _).2
    rcases hj with hj | hj <;> rw [hj]
    · exact hp
    · exact hc
  · show withinLimitD (jitterFilterD _ _ _ _).1
    rcases hj with hj | hj <;> rw [hj]
    · exact hp
    · exact hc
  · simp only [loopBodyD]
    split_ifs
    · exact Or.inl rfl
    · exact Or.inr rfl

theorem avgSlack_nonneg : (0 : ℚ) ≤ avgSlack := by
  unfold avgSlack
  positivity

theorem runningAverageD_zero (a a' c : ℚ) :
    runningAverageD (some a) c 0 = runningAverageD (some a') c 0 := by
  have h : ∀ p : ℚ, runningAverageD (some p) c 0
      = (flo 0).bind fun t1 =>
          (flo (t1 + c)).bind fun t2 =>
            (flo (0 + 1)).bind fun d => if d = 0 then none else flo (t2 / d) := by
    intro p
    unfold runningAverageD
    rw [Option.some_bind, mul_zero]
  rw [h a, h a']

/-- One update in doubles from a finite accumulator: the result is finite and
within `avgSlack` of `[lo, hi]`, provided the old value was, or the index is 0. -/
theorem runningAverageD_slack (acc : Option ℚ) (c lo hi : ℚ) (n : Int) (h0 : 0 ≤ n)
    (h30 : n ≤ 30) (hlo : -(3 / 50) ≤ lo) (hhi : hi ≤ 3 / 50) (hc : lo ≤ c ∧ c ≤ hi)
    (ha : ∃ a : ℚ, acc = some a ∧ (n = 0 ∨ withinSlack (some a) lo hi)) :
    withinSlack (runningAverageD acc c (n : ℚ)) lo hi := by
  obtain ⟨a, rfl, hor⟩ := ha
  have hs := avgSlack_nonneg
  rcases hor with hz | hw
  · subst hz
    have hcw : lo - avgSlack ≤ c ∧ c ≤ hi + avgSlack := ⟨by linarith [hc.1], by linarith [hc.2]⟩
    obtain ⟨r, hr, hb⟩ := runningAverageD_bound c c lo hi 0 h0 h30 hlo hhi hc hcw
    have he : runningAverageD (some a) c ((0 : Int) : ℚ)
        = runningAverageD (some c) c ((0 : Int) : ℚ) := by
      rw [Int.cast_zero]
      exact runningAverageD_zero a c c
    rw [he, hr]
    exact hb
  · obtain ⟨r, hr, hb⟩ := runningAverageD_bound a c lo hi n h0 h30 hlo hhi hc hw
    rw [hr]
    exact hb

theorem withinSlack_some (acc : Option ℚ) (lo hi : ℚ) (h : withinSlack acc lo hi) :
    ∃ a : ℚ, acc = some a ∧ withinSlack (some a) lo hi := by
  cases acc with
  | none => exact absurd h (by simp [withinSlack])
  | some a => exact ⟨a, rfl, h⟩

/-- Accumulator bound along a run, for any accumulator `sel` that each pass
updates by `runningAverageD` with the sample component `selc`. -/
theorem runD_acc_slack (dev : Nat → Sample) (sel : DState → Option ℚ) (selc : Sample → ℚ)
    (hstep : ∀ (b : Bool) (s : DState), InLoopD s →
      sel (stepD dev b s) = runningAverageD (sel s) (selc (dev s.polls)) (s.cnt : ℚ))
    (lo hi : ℚ) (hlo : -(3 / 50) ≤ lo) (hhi : hi ≤ 3 / 50)
    (hc : ∀ k : Nat, lo ≤ selc (dev k) ∧ selc (dev k) ≤ hi) (stops : List Bool) :
    ∀ s : DState, InLoopD s →
      (∃ a : ℚ, sel s = some a ∧ (s.cnt = 0 ∨ withinSlack (some a) lo hi)) →
      stops ≠ [] → withinSlack (sel (runD dev stops s)) lo hi := by
  induction stops with
  | nil => intro s _ _ hne; exact absurd rfl hne
  | cons b bs ih =>
    intro s h ha _
    have h1 : withinSlack (sel (stepD dev b s)) lo hi := by
      rw [hstep b s h]
      exact runningAverageD_slack _ _ lo hi s.cnt h.2.1 h.2.2.1 hlo hhi (hc _) ha
    by_cases hb : bs = []
    · subst hb
      exact h1
    · obtain ⟨a, ha1, hw⟩ := withinSlack_some _ lo hi h1
      exact ih _ (stepD_inLoop dev b s h).1 ⟨a, ha1, Or.inr hw⟩ hb

theorem runD_avgLinearVelocity (dev : Nat → Sample) (stops : List Bool) :
    ∀ s : DState, InLoopD s → stops ≠ [] →
      (runD dev stops s).avgLinearVelocity
        = ⟨(runD dev stops s).avgx, (runD dev stops s).avgy, (runD dev stops s).avgz⟩ := by
  induction stops with
  | nil => intro s _ hne; exact absurd rfl hne
  | cons b bs ih =>
    intro s h _
    by_cases hb : bs = []
    · subst hb
      exact (stepD_avg dev b s h).2.2.2
    · exact ih _ (stepD_inLoop dev b s h).1 hb

theorem runD_inLoop (dev : Nat → Sample) (stops : List Bool) :
    ∀ s : DState, InLoopD s → InLoopD (runD dev stops s) := by
  induction stops with
  | nil => intro s h; exact h
  | cons b bs ih => intro s h; exact ih _ (stepD_inLoop dev b s h).1

theorem runD_velocities (dev : Nat → Sample) (stops : List Bool) :
    ∀ s : DState, InLoopD s → withinLimitD s.prevLinearVelocity → stops ≠ [] →
      withinLimitD (runD dev stops s).prevLinearVelocity
      ∧ withinLimitD (runD dev stops s).linearVelocity
      ∧ (runD dev stops s).hapticDevicePosition
          = (dev (s.polls + stops.length - 1)).position
      ∧ ((runD dev stops s).predictIndicatorPos
            = (dev (s.polls + stops.length - 1)).position.toO
          ∨ (runD dev stops s).predictIndicatorPos
            = cAddD (dev (s.polls + stops.length - 1)).position
                (runD dev stops s).linearVelocity.toO) := by
  induction stops with
  | nil => intro s _ _ hne; exact absurd rfl hne
  | cons b bs ih =>
    intro s h hp _
    have h1 := stepD_velocities dev b s h hp
    by_cases hb : bs = []
    · subst hb
      have hk : s.polls + [b].length - 1 = s.polls := by simp
      rw [hk]
      exact h1
    · have hin := stepD_inLoop dev b s h
      have h2 := ih _ hin.1 h1.1 hb
      have hlen : 0 < bs.length := List.length_pos.mpr hb
      have hk : (stepD dev b s).polls + bs.length - 1 = s.polls + (b :: bs).length - 1 := by
        rw [hin.2.2.2]
        simp only [List.length_cons]
        omega
      rw [hk] at h2
      exact h2

theorem some_nearAxisD (p lim : ℚ) (hlim : 0 ≤ lim) : nearAxisD (some p) p lim := by
  show abs (p - p) ≤ lim + (abs p + lim) / 2 ^ 53 + 1 / 2 ^ 1075
  rw [sub_self, abs_zero]
  have h1 : (0 : ℚ) ≤ (abs p + lim) / 2 ^ 53 := by
    have := abs_nonneg p
    positivity
  have h2 : (0 : ℚ) ≤ 1 / 2 ^ 1075 := by positivity
  linarith

theorem addD_nearAxisD (p l lim : ℚ) (hp : abs p ≤ 2 ^ 999) (hl : -lim ≤ l ∧ l ≤ lim)
    (hlim : lim ≤ 3 / 50) : nearAxisD (addD p (some l)) p lim := by
  have hlabs : abs l ≤ lim := abs_le.mpr hl
  have hsum : abs (p + l) ≤ abs p + lim := le_trans (abs_add p l) (by linarith)
  have hbig : abs (p + l) ≤ 2 ^ 1000 := by
    have : (2 : ℚ) ^ 999 + 3 / 50 ≤ 2 ^ 1000 := by norm_num
    linarith
  have he := fl_err (p + l)
  have hdiv : abs (p + l) / 2 ^ 53 ≤ (abs p + lim) / 2 ^ 53 :=
    div_le_div_of_nonneg_right hsum (by positivity)
  have htri : abs (fl (p + l) - p) ≤ abs (fl (p + l) - (p + l)) + abs l := by
    have := abs_add (fl (p + l) - (p + l)) l
    have heq : fl (p + l) - (p + l) + l = fl (p + l) - p := by ring
    rw [heq] at this
    exact this
  show nearAxisD ((some l).bind fun v => flo (p + v)) p lim
  rw [Option.some_bind, flo_eq_some _ hbig]
  show abs (fl (p + l) - p) ≤ lim + (abs p + lim) / 2 ^ 53 + 1 / 2 ^ 1075
  linarith

theorem predicted_nearAxisD (pos lv : cVector3d) (pred : oVector3d)
    (hpos : positionInRange pos) (hlv : withinLimitD lv)
    (hpred : pred = pos.toO ∨ pred = cAddD pos lv.toO) :
    nearAxisD pred.x pos.x limxD ∧ nearAxisD pred.y pos.y limyD
    ∧ nearAxisD pred.z pos.z limzD := by
  have hb := limxD_bounds
  have hy0 : (0 : ℚ) ≤ limyD := by rw [← hb.2.2.1]; exact hb.1
  have hz0 : (0 : ℚ) ≤ limzD := by rw [← hb.2.2.2]; exact hb.1
  have hy1 : limyD ≤ 3 / 50 := by rw [← hb.2.2.1]; exact hb.2.1
  have hz1 : limzD ≤ 3 / 50 := by rw [← hb.2.2.2]; exact hb.2.1
  rcases hpred with h | h
  · rw [h]
    exact ⟨some_nearAxisD _ _ hb.1, some_nearAxisD _ _ hy0, some_nearAxisD _ _ hz0⟩
  · rw [h]
    exact ⟨addD_nearAxisD _ _ _ hpos.1 hlv.1 hb.2.1,
      addD_nearAxisD _ _ _ hpos.2.1 hlv.2.1 hy1,
      addD_nearAxisD _ _ _ hpos.2.2 hlv.2.2 hz1⟩

theorem initStateD_prev (g : DState) : (initStateD g).prevLinearVelocity = ⟨0, 0, 0⟩ := by
  have h : (0.0 : ℚ) = 0 := by norm_num
  simp only [initStateD, h]

theorem enteredD_fields (dev : Nat → Sample) (g : DState) :
    (stepD dev false (initStateD g)).cnt = 0
    ∧ (stepD dev false (initStateD g)).polls = 0
    ∧ (stepD dev false (initStateD g)).prevLinearVelocity = ⟨0, 0, 0⟩
    ∧ (stepD dev false (initStateD g)).avgx = g.avgx
    ∧ (stepD dev false (initStateD g)).avgy = g.avgy
    ∧ (stepD dev false (initStateD g)).avgz = g.avgz := by
  rw [stepD_init]
  exact ⟨rfl, rfl, initStateD_prev g, rfl, rfl, rfl⟩

theorem zero_withinLimitD : withinLimitD ⟨0, 0, 0⟩ := by
  have hb := limxD_bounds
  have hy0 : (0 : ℚ) ≤ limyD := by rw [← hb.2.2.1]; exact hb.1
  have hz0 : (0 : ℚ) ≤ limzD := by rw [← hb.2.2.2]; exact hb.1
  have hx0 := hb.1
  refine ⟨⟨?_, hx0⟩, ⟨?_, hy0⟩, ⟨?_, hz0⟩⟩
  · show -limxD ≤ 0
    linarith
  · show -limyD ≤ 0
    linarith
  · show -limzD ≤ 0
    linarith

theorem entered_acc (a : Option ℚ) (c : Int) (lo hi : ℚ) (ha : a ≠ none) (hc : c = 0) :
    ∃ v : ℚ, a = some v ∧ (c = 0 ∨ withinSlack (some v) lo hi) := by
  cases a with
  | none => exact absurd rfl ha
  | some v => exact ⟨v, rfl, Or.inl hc⟩

theorem runningAverageD_first (a x : ℚ) (hx : fl x = x) (hb : abs x ≤ 3 / 50) :
    runningAverageD (some a) x 0 = some x := by
  have h0 : flo 0 = some 0 := by
    rw [flo_eq_some 0 (by norm_num), fl_zero]
  have h1 : flo 1 = some 1 := by
    have := fl_small_nat 1 (by norm_num)
    rw [flo_eq_some 1 (by norm_num)]
    simpa using this
  have hxs : flo x = some x := by
    rw [flo_eq_some_of_le x (3 / 50) hb (by norm_num), hx]
  simp only [runningAverageD, Option.some_bind, mul_zero, h0, zero_add, hxs, h1,
    one_ne_zero, if_false, div_one]

/-! ## Running average under constant input, in doubles -/

/-- Values of `runningAverageD` at two inputs where rounding shows: the doubles
`0.02, 0.02` at index 6 give `0.019999999999999997`, and the doubles
`0.05, 0.05` at index 2 give `0.05000000000000001`, where exact arithmetic
gives `1/50` and `1/20`. -/
theorem runningAverageD_examples :
    runningAverageD (some (fl 0.02)) (fl 0.02) 6 = some (2882303761517117 / 2 ^ 57)
    ∧ runningAverageD (some (fl 0.05)) (fl 0.05) 2 = some (7205759403792795 / 2 ^ 57)
    ∧ (2882303761517117 : ℚ) / 2 ^ 57 < fl 0.02
    ∧ fl 0.05 < (7205759403792795 : ℚ) / 2 ^ 57
    ∧ runningAverageD none (fl 0.02) 0 = none := by
  decide!

theorem constant_avg_eval :
    (afterIterationsD (constDevice ⟨0, 0, 0⟩ v002D) (memoryD (some 0)) 7).avgx
      = some (2882303761517117 / 2 ^ 57) := by
  decide!

theorem constant_avg_vector_eval :
    ¬ ((afterIterationsD (constDevice ⟨0, 0, 0⟩ v002D) (memoryD (some 0)) (6 + 1)).avgLinearVelocity
        = v002D.toO) := by
  decide!

theorem constant_avg_nonfinite :
    (afterIterationsD (constDevice ⟨0, 0, 0⟩ v002D) (memoryD none) 1).avgx
      ≠ some (fl 0.02) := by
  decide!

/-- C8 as stated fails in the program's doubles.  With every accumulator
starting at 0 and the device reporting the double `0.02` on the three axes, it
is not the case that the average vector is `(0.02, 0.02, 0.02)` after each of
the first 40 passes: after pass 7 (index 6) the x average is
`2882303761517117 / 2^57 = 0.019999999999999997`.  With a non-finite
accumulator content the average is not `0.02` after the first pass either. -/
theorem running_average_constant_counterexample :
    ¬ (∀ k : Nat, k < 40 →
        (afterIterationsD (constDevice ⟨0, 0, 0⟩ v002D) (memoryD (some 0)) (k + 1)).avgLinearVelocity
          = v002D.toO)
    ∧ (afterIterationsD (constDevice ⟨0, 0, 0⟩ v002D) (memoryD (some 0)) 7).avgx
        = some (2882303761517117 / 2 ^ 57)
    ∧ (afterIterationsD (constDevice ⟨0, 0, 0⟩ v002D) (memoryD none) 1).avgx
        ≠ some (fl 0.02) := by
  exact ⟨fun h => constant_avg_vector_eval (h 6 (by norm_num)), constant_avg_eval,
    constant_avg_nonfinite⟩

/-- C8 amended: in doubles, for every double `x` with `|x| ≤ .05`, every
flag history and every finite initial content of the accumulator of an axis,
if the raw velocity on that axis is `x` at every poll then after every pass
(one per entry of the non-empty `stops`, index wrap included) the running
average on that axis is a finite double within `10^-15` of `x`, and after the
first pass it is `x` exactly; with the double `0.02` on all axes each component
of the average vector is within `10^-15` of it after each of the first 40
passes. -/
theorem running_average_near_constant (x : ℚ) (hx : fl x = x) (hxl : abs x ≤ limxD)
    (dev : Nat → Sample) (g : DState) (stops : List Bool) (hne : stops ≠ []) :
    ((∀ k : Nat, (dev k).linearVelocity.x = x) → g.avgx ≠ none →
        withinSlack (runD dev (false :: stops) (initStateD g)).avgx x x
        ∧ (runD dev (false :: stops) (initStateD g)).avgLinearVelocity.x
            = (runD dev (false :: stops) (initStateD g)).avgx
        ∧ (runD dev [false, false] (initStateD g)).avgx = some x)
    ∧ ((∀ k : Nat, (dev k).linearVelocity.y = x) → g.avgy ≠ none →
        withinSlack (runD dev (false :: stops) (initStateD g)).avgy x x
        ∧ (runD dev (false :: stops) (initStateD g)).avgLinearVelocity.y
            = (runD dev (false :: stops) (initStateD g)).avgy
        ∧ (runD dev [false, false] (initStateD g)).avgy = some x)
    ∧ ((∀ k : Nat, (dev k).linearVelocity.z = x) → g.avgz ≠ none →
        withinSlack (runD dev (false :: stops) (initStateD g)).avgz x x
        ∧ (runD dev (false :: stops) (initStateD g)).avgLinearVelocity.z
            = (runD dev (false :: stops) (initStateD g)).avgz
        ∧ (runD dev [false, false] (initStateD g)).avgz = some x)
    ∧ (∀ (pos : cVector3d) (m : DState) (n : Nat),
        m.avgx ≠ none → m.avgy ≠ none → m.avgz ≠ none → n < 40 →
        withinSlack (afterIterationsD (constDevice pos v002D) m (n + 1)).avgLinearVelocity.x
            (fl 0.02) (fl 0.02)
        ∧ withinSlack (afterIterationsD (constDevice pos v002D) m (n + 1)).avgLinearVelocity.y
            (fl 0.02) (fl 0.02)
        ∧ withinSlack (afterIterationsD (constDevice pos v002D) m (n + 1)).avgLinearVelocity.z
            (fl 0.02) (fl 0.02)) := by
  have hb := limxD_bounds
  have hx50 : abs x ≤ 3 / 50 := le_trans hxl hb.2.1
  have hxi : -(3 / 50) ≤ x ∧ x ≤ 3 / 50 := abs_le.mp hx50
  have hin := inLoopD_entered dev g
  have he := enteredD_fields dev g
  have hvec := runD_avgLinearVelocity dev stops _ hin hne
  have hclamp : ∀ (v lim : ℚ), v = x → lim = limxD → axisUpperLim v lim = x := by
    intro v lim hv hl
    rw [hv, hl]
    exact axisUpperLim_of_abs_le _ _ hxl
  refine ⟨?_, ?_, ?_, ?_⟩
  · intro hv ha
    have hc : ∀ k : Nat, x ≤ axisUpperLim (dev k).linearVelocity.x limxD
        ∧ axisUpperLim (dev k).linearVelocity.x limxD ≤ x := by
      intro k
      rw [hclamp _ _ (hv k) rfl]
      exact ⟨le_refl _, le_refl _⟩
    have hrun := runD_acc_slack dev (fun s => s.avgx)
      (fun smp => axisUpperLim smp.linearVelocity.x limxD)
      (fun b s h => (stepD_avg dev b s h).1) x x hxi.1 hxi.2 hc stops _ hin
      (entered_acc _ _ x x (by simp only [he.2.2.2.1]; exact ha) he.1) hne
    refine ⟨hrun, ?_, ?_⟩
    · show (runD dev stops (stepD dev false (initStateD g))).avgLinearVelocity.x = _
      rw [hvec]
      rfl
    · show (stepD dev false (stepD dev false (initStateD g))).avgx = some x
      rw [(stepD_avg dev false _ hin).1, he.1, he.2.1, hclamp _ _ (hv 0) rfl, he.2.2.2.1]
      cases hg : g.avgx with
      | none => exact absurd hg ha
      | some a =>
        rw [Int.cast_zero]
        exact runningAverageD_first a x hx hx50
  · intro hv ha
    have hc : ∀ k : Nat, x ≤ axisUpperLim (dev k).linearVelocity.y limyD
        ∧ axisUpperLim (dev k).linearVelocity.y limyD ≤ x := by
      intro k
      rw [hclamp _ _ (hv k) hb.2.2.1.symm]
      exact ⟨le_refl _, le_refl _⟩
    have hrun := runD_acc_slack dev (fun s => s.avgy)
      (fun smp => axisUpperLim smp.linearVelocity.y limyD)
      (fun b s h => (stepD_avg dev b s h).2.1) x x hxi.1 hxi.2 hc stops _ hin
      (entered_acc _ _ x x (by simp only [he.2.2.2.2.1]; exact ha) he.1) hne
    refine ⟨hrun, ?_, ?_⟩
    · show (runD dev stops (stepD dev false (initStateD g))).avgLinearVelocity.y = _
      rw [hvec]
      rfl
    · show (stepD dev false (stepD dev false (initStateD g))).avgy = some x
      rw [(stepD_avg dev false _ hin).2.1, he.1, he.2.1, hclamp _ _ (hv 0) hb.2.2.1.symm,
        he.2.2.2.2.1]
      cases hg : g.avgy with
      | none => exact absurd hg ha
      | some a =>
        rw [Int.cast_zero]
        exact runningAverageD_first a x hx hx50
  · intro hv ha
    have hc : ∀ k : Nat, x ≤ axisUpperLim (dev k).linearVelocity.z limzD
        ∧ axisUpperLim (dev k).linearVelocity.z limzD ≤ x := by
      intro k
      rw [hclamp _ _ (hv k) hb.2.2.2.symm]
      exact ⟨le_refl _, le_refl _⟩
    have hrun := runD_acc_slack dev (fun s => s.avgz)
      (fun smp => axisUpperLim smp.linearVelocity.z limzD)
      (fun b s h => (stepD_avg dev b s h).2.2.1) x x hxi.1 hxi.2 hc stops _ hin
      (entered_acc _ _ x x (by simp only [he.2.2.2.2.2]; exact ha) he.1) hne
    refine ⟨hrun, ?_, ?_⟩
    · show (runD dev stops (stepD dev false (initStateD g))).avgLinearVelocity.z = _
      rw [hvec]
      rfl
    · show (stepD dev false (stepD dev false (initStateD g))).avgz = some x
      rw [(stepD_avg dev false _ hin).2.2.1, he.1, he.2.1, hclamp _ _ (hv 0) hb.2.2.2.symm,
        he.2.2.2.2.2]
      cases hg : g.avgz with
      | none => exact absurd hg ha
      | some a =>
        rw [Int.cast_zero]
        exact runningAverageD_first a x hx hx50
  · intro pos m n hmx hmy hmz _
    have h2 : abs (fl 0.02) ≤ limxD ∧ -(3 / 50) ≤ fl 0.02 ∧ fl 0.02 ≤ 3 / 50 := by
      decide!
    have hin2 := inLoopD_entered (constDevice pos v002D) m
    have he2 := enteredD_fields (constDevice pos v002D) m
    have hne2 : List.replicate (n + 1) false ≠ [] := by simp
    have hvec2 := runD_avgLinearVelocity (constDevice pos v002D)
      (List.replicate (n + 1) false) _ hin2 hne2
    have hcx : ∀ (lim : ℚ), lim = limxD → ∀ k : Nat,
        fl 0.02 ≤ axisUpperLim (fl 0.02) lim ∧ axisUpperLim (fl 0.02) lim ≤ fl 0.02 := by
      intro lim hl k
      rw [hl, axisUpperLim_of_abs_le _ _ h2.1]
      exact ⟨le_refl _, le_refl _⟩
    have hrx := runD_acc_slack (constDevice pos v002D) (fun s => s.avgx)
      (fun smp => axisUpperLim smp.linearVelocity.x limxD)
      (fun b s h => (stepD_avg (constDevice pos v002D) b s h).1) (fl 0.02) (fl 0.02)
      h2.2.1 h2.2.2 (hcx limxD rfl) (List.replicate (n + 1) false) _ hin2
      (entered_acc _ _ _ _ (by simp only [he2.2.2.2.1]; exact hmx) he2.1) hne2
    have hry := runD_acc_slack (constDevice pos v002D) (fun s => s.avgy)
      (fun smp => axisUpperLim smp.linearVelocity.y limyD)
      (fun b s h => (stepD_avg (constDevice pos v002D) b s h).2.1) (fl 0.02) (fl 0.02)
      h2.2.1 h2.2.2 (hcx limyD hb.2.2.1.symm) (List.replicate (n + 1) false) _ hin2
      (entered_acc _ _ _ _ (by simp only [he2.2.2.2.2.1]; exact hmy) he2.1) hne2
    have hrz := runD_acc_slack (constDevice pos v002D) (fun s => s.avgz)
      (fun smp => axisUpperLim smp.linearVelocity.z limzD)
      (fun b s h => (stepD_avg (constDevice pos v002D) b s h).2.2.1) (fl 0.02) (fl 0.02)
      h2.2.1 h2.2.2 (hcx limzD hb.2.2.2.symm) (List.replicate (n + 1) false) _ hin2
      (entered_acc _ _ _ _ (by simp only [he2.2.2.2.2.2]; exact hmz) he2.1) hne2
    unfold afterIterationsD
    rw [List.replicate_succ]
    refine ⟨?_, ?_, ?_⟩
    · show withinSlack (runD (constDevice pos v002D) (List.replicate (n + 1) false)
        (stepD (constDevice pos v002D) false (initStateD m))).avgLinearVelocity.x _ _
      rw [hvec2]
      exact hrx
    · show withinSlack (runD (constDevice pos v002D) (List.replicate (n + 1) false)
        (stepD (constDevice pos v002D) false (initStateD m))).avgLinearVelocity.y _ _
      rw [hvec2]
      exact hry
    · show withinSlack (runD (constDevice pos v002D) (List.replicate (n + 1) false)
        (stepD (constDevice pos v002D) false (initStateD m))).avgLinearVelocity.z _ _
      rw [hvec2]
      exact hrz

/-- Witness of the amended C8: `x` the double `0.02`, accumulators starting at
7, three passes with the flag cleared during the second. -/
theorem running_average_near_constant_witness :
    fl (fl 0.02) = fl 0.02 ∧ abs (fl 0.02) ≤ limxD
    ∧ [false, true, false] ≠ ([] : List Bool)
    ∧ (∀ k : Nat, (constDevice ⟨1, 2, 3⟩ v002D k).linearVelocity.x = fl 0.02)
    ∧ (memoryD (some 7)).avgx ≠ none
    ∧ withinSlack (runD (constDevice ⟨1, 2, 3⟩ v002D) (false :: [false, true, false])
        (initStateD (memoryD (some 7)))).avgx (fl 0.02) (fl 0.02) := by
  have h1 : fl (fl 0.02) = fl 0.02 := by decide!
  have h2 : abs (fl 0.02) ≤ limxD := by decide!
  have h3 : [false, true, false] ≠ ([] : List Bool) := by simp
  have h4 : ∀ k : Nat, (constDevice ⟨1, 2, 3⟩ v002D k).linearVelocity.x = fl 0.02 :=
    fun _ => rfl
  have h5 : (memoryD (some 7)).avgx ≠ none := by simp [memoryD]
  exact ⟨h1, h2, h3, h4, h5,
    ((running_average_near_constant (fl 0.02) h1 h2 (constDevice ⟨1, 2, 3⟩ v002D)
      (memoryD (some 7)) [false, true, false] h3).1 h4 h5).1⟩

/-! ## Boundedness in doubles -/

theorem saturated_avg_eval :
    (afterIterationsD (constDevice ⟨0, 0, 0⟩ ⟨1, 1, 1⟩) (memoryD (some 0)) 3).avgx
      = some (7205759403792795 / 2 ^ 57) := by
  decide!

theorem saturated_avg_nonfinite :
    (afterIterationsD (constDevice ⟨0, 0, 0⟩ ⟨1, 1, 1⟩) (memoryD none) 3).avgx.isSome
      = false := by
  decide!

theorem ramp_position_eval :
    (afterIterationsD rampDevice (memoryD (some 0)) 7).hapticDevicePosition.x = 1 := by
  decide!

theorem runD_append (dev : Nat → Sample) (l1 l2 : List Bool) :
    ∀ s : DState, runD dev (l1 ++ l2) s = runD dev l2 (runD dev l1 s) := by
  induction l1 with
  | nil => intro s; rfl
  | cons b bs ih => intro s; exact ih _

theorem afterIterationsD_succ (dev : Nat → Sample) (g : DState) (k : Nat) :
    afterIterationsD dev g (k + 1) = stepD dev false (afterIterationsD dev g k) := by
  unfold afterIterationsD
  have hr : List.replicate (k + 1 + 1) false = List.replicate (k + 1) false ++ [false] := by
    rw [List.replicate_succ' (k + 1)]
  rw [hr, runD_append]
  rfl

theorem afterIterationsD_inLoop (dev : Nat → Sample) (g : DState) (k : Nat) :
    InLoopD (afterIterationsD dev g k) ∧ (afterIterationsD dev g k).polls = k := by
  induction k with
  | zero =>
    have h : afterIterationsD dev g 0 = stepD dev false (initStateD g) := rfl
    rw [h]
    exact ⟨inLoopD_entered dev g, (enteredD_fields dev g).2.1⟩
  | succ n ih =>
    rw [afterIterationsD_succ]
    have h := stepD_inLoop dev false _ ih.1
    exact ⟨h.1, by rw [h.2.2.2, ih.2]⟩

theorem loopBodyD_of_prev (smp : Sample) (s t : DState)
    (h : s.prevLinearVelocity = t.prevLinearVelocity) :
    (loopBodyD smp s).prevLinearVelocity = (loopBodyD smp t).prevLinearVelocity
    ∧ (loopBodyD smp s).predictIndicatorPos = (loopBodyD smp t).predictIndicatorPos := by
  simp only [loopBodyD, h, and_self]

theorem ramp_checks : ∀ k : Nat, k < 7 →
    (loopBodyD (rampDevice k) (withPrev ⟨rampHeld k, 0, 0⟩)).prevLinearVelocity
      = ⟨rampHeld (k + 1), 0, 0⟩ := by
  decide!

theorem ramp_prev (g : DState) (k : Nat) (hk : k ≤ 7) :
    (afterIterationsD rampDevice g k).prevLinearVelocity = ⟨rampHeld k, 0, 0⟩ := by
  induction k with
  | zero =>
    have h : afterIterationsD rampDevice g 0 = stepD rampDevice false (initStateD g) := rfl
    rw [h]
    exact (enteredD_fields rampDevice g).2.2.1
  | succ n ih =>
    have hn := ih (by omega)
    have hin := afterIterationsD_inLoop rampDevice g n
    rw [afterIterationsD_succ, stepD_forTest rampDevice false _ hin.1.1 hin.1.2.2.1]
    show (loopBodyD (rampDevice (afterIterationsD rampDevice g n).polls)
      (afterIterationsD rampDevice g n)).prevLinearVelocity = _
    rw [hin.2, (loopBodyD_of_prev (rampDevice n) _ (withPrev ⟨rampHeld n, 0, 0⟩) hn).1]
    exact ramp_checks n (by omega)

theorem ramp_last_pass :
    (loopBodyD (rampDevice 6) (withPrev ⟨rampHeld 6, 0, 0⟩)).predictIndicatorPos.x
      = some (4728779608739021 / 2 ^ 52) := by
  decide!

theorem ramp_predicted_eval :
    (afterIterationsD rampDevice (memoryD (some 0)) 7).predictIndicatorPos.x
      = some (4728779608739021 / 2 ^ 52) := by
  have hin := afterIterationsD_inLoop rampDevice (memoryD (some 0)) 6
  have hp := ramp_prev (memoryD (some 0)) 6 (by norm_num)
  rw [afterIterationsD_succ, stepD_forTest rampDevice false _ hin.1.1 hin.1.2.2.1]
  show (loopBodyD (rampDevice (afterIterationsD rampDevice (memoryD (some 0)) 6).polls)
    (afterIterationsD rampDevice (memoryD (some 0)) 6)).predictIndicatorPos.x = _
  rw [hin.2, (loopBodyD_of_prev (rampDevice 6) _ (withPrev ⟨rampHeld 6, 0, 0⟩) hp).2]
  exact ramp_last_pass

theorem above_limit_eval :
    ¬ ((7205759403792795 : ℚ) / 2 ^ 57 ≤ limxD)
    ∧ ¬ (abs ((4728779608739021 : ℚ) / 2 ^ 52 - 1) ≤ limxD) := by
  decide!

/-- C11 as stated fails in the program's doubles.  With the raw velocity
saturating the clamp on the first three passes (accumulators starting at 0)
the x average after the third pass is `7205759403792795 / 2^57`
`= 0.05000000000000001`, above the double `.05`, so it does not lie in
`[-0.05, 0.05]`; on a device at position 1 whose velocity climbs to the clamp
in steps below the jitter threshold, the predicted x position after pass 7 is
`4728779608739021 / 2^52` and differs from the position by more than `.05`;
and a non-finite accumulator content stays non-finite. -/
theorem bounded_counterexample :
    (afterIterationsD (constDevice ⟨0, 0, 0⟩ ⟨1, 1, 1⟩) (memoryD (some 0)) 3).avgx
        = some (7205759403792795 / 2 ^ 57)
    ∧ ¬ (∃ v : ℚ,
          (afterIterationsD (constDevice ⟨0, 0, 0⟩ ⟨1, 1, 1⟩) (memoryD (some 0)) 3).avgx
            = some v
          ∧ -limxD ≤ v ∧ v ≤ limxD)
    ∧ (afterIterationsD rampDevice (memoryD (some 0)) 7).hapticDevicePosition.x = 1
    ∧ (afterIterationsD rampDevice (memoryD (some 0)) 7).predictIndicatorPos.x
        = some (4728779608739021 / 2 ^ 52)
    ∧ ¬ (∃ v : ℚ,
          (afterIterationsD rampDevice (memoryD (some 0)) 7).predictIndicatorPos.x = some v
          ∧ abs (v - (afterIterationsD rampDevice (memoryD (some 0)) 7).hapticDevicePosition.x)
              ≤ limxD)
    ∧ (afterIterationsD (constDevice ⟨0, 0, 0⟩ ⟨1, 1, 1⟩) (memoryD none) 3).avgx = none := by
  have h1 := saturated_avg_eval
  have h2 := ramp_position_eval
  have h3 := ramp_predicted_eval
  have h4' := saturated_avg_nonfinite
  have h4 : (afterIterationsD (constDevice ⟨0, 0, 0⟩ ⟨1, 1, 1⟩) (memoryD none) 3).avgx
      = none := by
    cases hx : (afterIterationsD (constDevice ⟨0, 0, 0⟩ ⟨1, 1, 1⟩) (memoryD none) 3).avgx with
    | none => rfl
    | some v =>
      rw [hx] at h4'
      exact absurd h4' (by simp)
  have h5 := above_limit_eval.1
  have h6 := above_limit_eval.2
  have n1 : ¬ (∃ v : ℚ,
      (afterIterationsD (constDevice ⟨0, 0, 0⟩ ⟨1, 1, 1⟩) (memoryD (some 0)) 3).avgx = some v
      ∧ -limxD ≤ v ∧ v ≤ limxD) := by
    rintro ⟨v, hv, _, hle⟩
    have hv' : (7205759403792795 : ℚ) / 2 ^ 57 = v := Option.some.inj (h1.symm.trans hv)
    exact h5 (hv' ▸ hle)
  have n2 : ¬ (∃ v : ℚ,
      (afterIterationsD rampDevice (memoryD (some 0)) 7).predictIndicatorPos.x = some v
      ∧ abs (v - (afterIterationsD rampDevice (memoryD (some 0)) 7).hapticDevicePosition.x)
          ≤ limxD) := by
    rintro ⟨v, hv, hle⟩
    have hv' : (4728779608739021 : ℚ) / 2 ^ 52 = v := Option.some.inj (h3.symm.trans hv)
    rw [h2, ← hv'] at hle
    exact h6 hle
  exact ⟨h1, n1, h2, h3, n2, h4⟩

/-- C11 amended: in doubles, from the initial state (stored previous velocity
`(0,0,0)`, index 0, finite accumulator contents), for every sequence of device
samples with positions in range and every flag history, after every pass each
component of the stored previous velocity and of the filtered velocity lies
between minus and plus the double `.05`, each component of the running average
is a finite double within `10^-15` of that interval, and each coordinate of the
published predicted position differs from the position read in that pass by at
most `.05` plus the rounding error of the sum,
`(|position| + .05) / 2^53 + 1 / 2^1075`. -/
theorem bounded_up_to_rounding (dev : Nat → Sample) (g : DState)
    (ha : g.avgx ≠ none ∧ g.avgy ≠ none ∧ g.avgz ≠ none)
    (hpos : ∀ k : Nat, positionInRange (dev k).position)
    (stops : List Bool) (hne : stops ≠ []) :
    withinLimitD (runD dev (false :: stops) (initStateD g)).prevLinearVelocity
    ∧ withinLimitD (runD dev (false :: stops) (initStateD g)).linearVelocity
    ∧ withinSlack (runD dev (false :: stops) (initStateD g)).avgx (-limxD) limxD
    ∧ withinSlack (runD dev (false :: stops) (initStateD g)).avgy (-limyD) limyD
    ∧ withinSlack (runD dev (false :: stops) (initStateD g)).avgz (-limzD) limzD
    ∧ (runD dev (false :: stops) (initStateD g)).avgLinearVelocity
        = ⟨(runD dev (false :: stops) (initStateD g)).avgx,
           (runD dev (false :: stops) (initStateD g)).avgy,
           (runD dev (false :: stops) (initStateD g)).avgz⟩
    ∧ (runD dev (false :: stops) (initStateD g)).hapticDevicePosition
        = (dev (stops.length - 1)).position
    ∧ nearAxisD (runD dev (false :: stops) (initStateD g)).predictIndicatorPos.x
        (dev (stops.length - 1)).position.x limxD
    ∧ nearAxisD (runD dev (false :: stops) (initStateD g)).predictIndicatorPos.y
        (dev (stops.length - 1)).position.y limyD
    ∧ nearAxisD (runD dev (false :: stops) (initStateD g)).predictIndicatorPos.z
        (dev (stops.length - 1)).position.z limzD := by
  have hb := limxD_bounds
  have hin := inLoopD_entered dev g
  have he := enteredD_fields dev g
  have hp0 : withinLimitD (stepD dev false (initStateD g)).prevLinearVelocity := by
    rw [he.2.2.1]
    exact zero_withinLimitD
  have hvel := runD_velocities dev stops _ hin hp0 hne
  rw [he.2.1, Nat.zero_add] at hvel
  have hvec := runD_avgLinearVelocity dev stops _ hin hne
  have hcl := fun k => clampedD_within (dev k)
  have hlx : -(3 / 50) ≤ -limxD ∧ limxD ≤ 3 / 50 := ⟨by linarith [hb.2.1], hb.2.1⟩
  have hly : -(3 / 50) ≤ -limyD ∧ limyD ≤ 3 / 50 := by
    rw [← hb.2.2.1]; exact hlx
  have hlz : -(3 / 50) ≤ -limzD ∧ limzD ≤ 3 / 50 := by
    rw [← hb.2.2.2]; exact hlx
  have hrx := runD_acc_slack dev (fun s => s.avgx)
    (fun smp => axisUpperLim smp.linearVelocity.x limxD)
    (fun b s h => (stepD_avg dev b s h).1) (-limxD) limxD hlx.1 hlx.2
    (fun k => (hcl k).1) stops _ hin
    (entered_acc _ _ _ _ (by simp only [he.2.2.2.1]; exact ha.1) he.1) hne
  have hry := runD_acc_slack dev (fun s => s.avgy)
    (fun smp => axisUpperLim smp.linearVelocity.y limyD)
    (fun b s h => (stepD_avg dev b s h).2.1) (-limyD) limyD hly.1 hly.2
    (fun k => (hcl k).2.1) stops _ hin
    (entered_acc _ _ _ _ (by simp only [he.2.2.2.2.1]; exact ha.2.1) he.1) hne
  have hrz := runD_acc_slack dev (fun s => s.avgz)
    (fun smp => axisUpperLim smp.linearVelocity.z limzD)
    (fun b s h => (stepD_avg dev b s h).2.2.1) (-limzD) limzD hlz.1 hlz.2
    (fun k => (hcl k).2.2) stops _ hin
    (entered_acc _ _ _ _ (by simp only [he.2.2.2.2.2]; exact ha.2.2) he.1) hne
  have hnear := predicted_nearAxisD (dev (stops.length - 1)).position
    (runD dev stops (stepD dev false (initStateD g))).linearVelocity
    (runD dev stops (stepD dev false (initStateD g))).predictIndicatorPos
    (hpos _) hvel.2.1 hvel.2.2.2
  exact ⟨hvel.1, hvel.2.1, hrx, hry, hrz, hvec, hvel.2.2.1, hnear.1, hnear.2.1, hnear.2.2⟩

/-- Witness of the amended C11: two passes, the flag cleared before the second,
on a device at `(1, 2, 3)` whose raw velocity `(1, -1, 0.3)` saturates the
clamp, accumulators starting at 7. -/
theorem bounded_up_to_rounding_witness :
    ((memoryD (some 7)).avgx ≠ none ∧ (memoryD (some 7)).avgy ≠ none
      ∧ (memoryD (some 7)).avgz ≠ none)
    ∧ (∀ k : Nat, positionInRange (constDevice ⟨1, 2, 3⟩ ⟨1, -1, 0.3⟩ k).position)
    ∧ [false, true] ≠ ([] : List Bool)
    ∧ withinLimitD (runD (constDevice ⟨1, 2, 3⟩ ⟨1, -1, 0.3⟩) (false :: [false, true])
        (initStateD (memoryD (some 7)))).linearVelocity
    ∧ withinSlack (runD (constDevice ⟨1, 2, 3⟩ ⟨1, -1, 0.3⟩) (false :: [false, true])
        (initStateD (memoryD (some 7)))).avgx (-limxD) limxD
    ∧ nearAxisD (runD (constDevice ⟨1, 2, 3⟩ ⟨1, -1, 0.3⟩) (false :: [false, true])
        (initStateD (memoryD (some 7)))).predictIndicatorPos.x 1 limxD := by
  have h1 : (memoryD (some 7)).avgx ≠ none ∧ (memoryD (some 7)).avgy ≠ none
      ∧ (memoryD (some 7)).avgz ≠ none := by simp [memoryD]
  have h2 : ∀ k : Nat, positionInRange (constDevice ⟨1, 2, 3⟩ ⟨1, -1, 0.3⟩ k).position := by
    intro k
    show positionInRange ⟨1, 2, 3⟩
    unfold positionInRange
    norm_num
  have h3 : [false, true] ≠ ([] : List Bool) := by simp
  have h := bounded_up_to_rounding (constDevice ⟨1, 2, 3⟩ ⟨1, -1, 0.3⟩) (memoryD (some 7))
    h1 h2 [false, true] h3
  exact ⟨h1, h2, h3, h.2.1, h.2.2.1, h.2.2.2.2.2.2.2.1⟩

end HapticLoop
